import Mathlib

/-!
Verification of the duplicate-detection core of the NetLab repository.

The embedding below translates, line by line, the functions of
`src/duplicate_finder.py` (taxon parser, node matcher, interaction
comparator, duplicate classifier) and the corpus resolution pass that
`src/mainframe.py` imports.  Python dictionaries become association
lists, pandas tables become a `Network` structure carrying row labels,
column labels and a cell function, Python floats used in threshold
comparisons become rationals, and the iteration order of the Python
sets handed to the matcher becomes an explicit list argument.
-/

/-- Value stored in a field of a parsed identifier.  In the Python source
the `extra` field holds the *list* `tax_words[2:]` when a label has more
than two tokens and the *string* `''` otherwise (or a regex group string
in the unresolved branch); Python equality between a list and a string is
`False`, and `x != ''` is `True` for every list.  This sum type reproduces
those semantics exactly. -/
inductive ExtraVal where
  | str : String → ExtraVal
  | toks : List String → ExtraVal
  deriving DecidableEq, Repr

/-- Python `tax_name.split(' ')` on the character list: split at every
single space, keeping empty pieces; `''.split(' ') == ['']`. -/
def splitChars : List Char → List (List Char)
  | [] => [[]]
  | c :: rest =>
    if c = ' ' then [] :: splitChars rest
    else
      match splitChars rest with
      | [] => [[c]]
      | w :: ws => (c :: w) :: ws

/-- Python `str.split(' ')`. -/
def pySplit (s : String) : List String :=
  (splitChars s.toList).map String.mk

/-- `re.match(r'(^sp$|n\.i\.|^sp[^a-z])', w)` viewed as a Boolean: the
match is anchored at the start of `w` and succeeds iff `w` is exactly
`"sp"`, starts with `"n.i."`, or starts with `"sp"` followed by a
character outside `a`-`z`. -/
def isMissingMarker (w : String) : Bool :=
  match w.toList with
  | ['s', 'p'] => true
  | 'n' :: '.' :: 'i' :: '.' :: _ => true
  | 's' :: 'p' :: c :: _ => !c.isLower
  | _ => false

/-- `name_missing_structure` of the source: inspect the second
whitespace token; one-word names hit the `IndexError` branch and the
function returns `None` (falsy). -/
def name_missing_structure (taxName : String) : Bool :=
  match (pySplit taxName).drop 1 with
  | [] => false
  | w :: _ => isMissingMarker w

/-- The `base` component `sp\.{0,2}|n\.i\.` of `SPECIES_SPATTERN`:
returns the input remaining after the (greedy, first-alternative)
match, or `none` when neither alternative matches here. -/
def matchBase : List Char → Option (List Char)
  | 's' :: 'p' :: rest =>
    some (rest.drop ((rest.takeWhile (· = '.')).take 2).length)
  | 'n' :: '.' :: 'i' :: '.' :: rest => some rest
  | _ => none

/-- A `' ?'` component: consume one space if present. -/
def dropOptSpace : List Char → List Char
  | ' ' :: rest => rest
  | l => l

/-- A greedy `[0-9]*` component. -/
def spanDigits (l : List Char) : List Char × List Char :=
  (l.takeWhile Char.isDigit, l.dropWhile Char.isDigit)

/-- The `spnet` group `M_PL_[0-9]{3}(_[0-9]{0,3})?`: literal prefix,
exactly three digits, then optionally an underscore with up to three
digits (greedy).  Returns the matched text plus the rest, or `none`
when the group does not participate. -/
def matchNet : List Char → Option (List Char × List Char)
  | 'M' :: '_' :: 'P' :: 'L' :: '_' :: rest =>
    match rest with
    | d1 :: d2 :: d3 :: rest2 =>
      if d1.isDigit && d2.isDigit && d3.isDigit then
        match rest2 with
        | '_' :: rest3 =>
          let ds := (rest3.takeWhile Char.isDigit).take 3
          some ('M' :: '_' :: 'P' :: 'L' :: '_' :: d1 :: d2 :: d3 :: '_' :: ds,
                rest3.drop ds.length)
        | _ => some (['M', '_', 'P', 'L', '_', d1, d2, d3], rest2)
      else none
    | _ => none
  | _ => none

/-- One attempt of `SPECIES_SPATTERN` at the current position.  After the
leading space and the `base` alternation every later component of the
pattern (`' ?'`, `[0-9]*`, the optional `spnet` group, `' ?'`, `.*`) can
match the empty string, so the whole pattern succeeds exactly when the
space and `base` do, and the groups are fixed by left-to-right greedy
matching; `.*` stops at a newline.  Returns `(spindex, spnet, spextra)`,
with `spnet = ""` when the group did not participate (the caller turns
`None` into `''` anyway). -/
def matchSPatternAt : List Char → Option (String × String × String)
  | ' ' :: rest =>
    match matchBase rest with
    | none => none
    | some r1 =>
      let r2 := dropOptSpace r1
      let (idx, r3) := spanDigits r2
      let r4 := dropOptSpace r3
      let (net, r5) :=
        match matchNet r4 with
        | some (m, r) => (m, r)
        | none => ([], r4)
      let r6 := dropOptSpace r5
      some (String.mk idx, String.mk net, String.mk (r6.takeWhile (· ≠ '\n')))
  | _ => none

/-- `re.search(SPECIES_SPATTERN, tax_name)`: try every start position
from the left. -/
def searchSPattern : List Char → Option (String × String × String)
  | [] => none
  | c :: rest =>
    match matchSPatternAt (c :: rest) with
    | some g => some g
    | none => searchSPattern rest

/-- The `SpeciesIdentifier` namedtuple of the source. -/
structure SpeciesIdentifier where
  genus : String
  species : String
  index : String
  network : String
  extra : ExtraVal
  origin : String
  deriving DecidableEq, Repr

/-- `species_pattern` of the source.  No `IndexError` is reachable from
any input string (`split(' ')` never yields an empty list), so the
function is total: the `try`/`except`-`raise` wrapper never fires. -/
def species_pattern (taxName : String) : SpeciesIdentifier :=
  let taxWords := pySplit taxName
  let normalStructure : SpeciesIdentifier :=
    { genus := taxWords.headD ""
      species := (taxWords.drop 1).headD ""
      index := ""
      network := ""
      origin := taxName
      extra := if taxWords.length > 2 then .toks (taxWords.drop 2) else .str "" }
  if !name_missing_structure taxName then normalStructure
  else
    match searchSPattern taxName.toList with
    | none => normalStructure
    | some (idx, net, ext) =>
      { genus := taxWords.headD ""
        species := ""
        index := idx
        network := if net == "" then "" else net
        extra := .str ext
        origin := taxName }

/-- The field names `parameterized_compare` is called with. -/
inductive ParamField where
  | genus | species | index | network | extra | origin
  deriving DecidableEq, Repr

/-- `getattr(a, arg)`, with string fields injected into `ExtraVal` so the
two Python value shapes (string / token list) live in one type. -/
def fval (a : SpeciesIdentifier) : ParamField → ExtraVal
  | .genus => .str a.genus
  | .species => .str a.species
  | .index => .str a.index
  | .network => .str a.network
  | .extra => a.extra
  | .origin => .str a.origin

/-- `parameterized_compare` of the source: with no parameters compare the
whole identifiers, otherwise every named field must agree and, unless
`allow_empty`, the field value of `a` must differ from `''` (a Python
list compares unequal to `''`). -/
def parameterized_compare (a b : SpeciesIdentifier) (allowEmpty : Bool)
    (args : List ParamField) : Bool :=
  if args.isEmpty then a == b
  else args.all fun arg =>
    (fval a arg == fval b arg) && (!(fval a arg == .str "") || allowEmpty)

/-- Truthiness of `map.get(k, None)` in Python: `None` and `''` are falsy. -/
def truthyGet (v : Option String) : Bool :=
  match v with
  | none => false
  | some s => s != ""

/-- The inner `for cmpb in set2` loop of `map_nodeset_by_parameters`:
skip already-mapped elements of `set2`, record the first compatible pair
in both directions and stop scanning. -/
def map_nodeset_scan (cmpa : SpeciesIdentifier) (set2 : List SpeciesIdentifier)
    (map12 map21 : List (String × String)) (allowEmpty : Bool) (args : List ParamField) :
    List (String × String) × List (String × String) :=
  match set2 with
  | [] => (map12, map21)
  | cmpb :: rest =>
    if (map21.lookup cmpb.origin).isSome then
      map_nodeset_scan cmpa rest map12 map21 allowEmpty args
    else if parameterized_compare cmpa cmpb allowEmpty args
        && !truthyGet (map21.lookup cmpb.origin) then
      (map12 ++ [(cmpa.origin, cmpb.origin)], map21 ++ [(cmpb.origin, cmpa.origin)])
    else map_nodeset_scan cmpa rest map12 map21 allowEmpty args

/-- `map_nodeset_by_parameters` of the source.  Note that the source
passes `not cmp_empty` as the `allow_empty` argument of
`parameterized_compare`; the embedding reproduces that inversion. -/
def map_nodeset_by_parameters (set1 set2 : List SpeciesIdentifier)
    (map12 map21 : List (String × String)) (cmpEmpty : Bool) (args : List ParamField) :
    List (String × String) × List (String × String) :=
  match set1 with
  | [] => (map12, map21)
  | cmpa :: rest =>
    if (map12.lookup cmpa.origin).isSome then
      map_nodeset_by_parameters rest set2 map12 map21 cmpEmpty args
    else
      let ms := map_nodeset_scan cmpa set2 map12 map21 (!cmpEmpty) args
      map_nodeset_by_parameters rest set2 ms.1 ms.2 cmpEmpty args

/-- `map_non_matches` of the source: add every missing key of `key_set`
to the mapping, mapped to `None`. -/
def map_non_matches (keySet : List String) (mapping : List (String × Option String)) :
    List (String × Option String) :=
  match keySet with
  | [] => mapping
  | k :: rest =>
    if (mapping.lookup k).isSome then map_non_matches rest mapping
    else map_non_matches rest (mapping ++ [(k, none)])

def nonspecificParameters : List ParamField := [.genus, .index, .network, .extra]

/-- The five matching tiers of `map_nodeset`, on already-parsed
identifier lists: the exact-origin tier, the `for stop in range(4, 1, -1)`
tiers over prefixes of `[genus, index, network, extra]`, and the species
tier, threading the two mutated maps through. -/
def map_nodeset_tiers (pset1 pset2 : List SpeciesIdentifier) :
    List (String × String) × List (String × String) :=
  let ms0 := map_nodeset_by_parameters pset1 pset2 [] [] true [.origin]
  let ms1 := [4, 3, 2].foldl
    (fun ms stop => map_nodeset_by_parameters pset1 pset2 ms.1 ms.2 false
      (nonspecificParameters.take stop)) ms0
  map_nodeset_by_parameters pset1 pset2 ms1.1 ms1.2 true [.species]

/-- `map_nodeset` of the source: parse both label sets, run the matching
tiers, compute the unmapped sets before `None`-filling, and return the
`None`-filled maps. -/
def map_nodeset (set1 set2 : List String) :
    List (String × Option String) × List (String × Option String) ×
      List String × List String :=
  let pset1 := set1.map species_pattern
  let pset2 := set2.map species_pattern
  let ms2 := map_nodeset_tiers pset1 pset2
  let unmapped1 := set1.filter fun k => (ms2.1.lookup k).isNone
  let unmapped2 := set2.filter fun k => (ms2.2.lookup k).isNone
  let full12 := map_non_matches set1 (ms2.1.map fun p => (p.1, some p.2))
  let full21 := map_non_matches set2 (ms2.2.map fun p => (p.1, some p.2))
  (full12, full21, unmapped1, unmapped2)

/-- Mirror of an association list (both directions of one pair set). -/
def swapPairs (m : List (String × String)) : List (String × String) :=
  m.map fun p => (p.2, p.1)

/-- The identity association list on a list of keys. -/
def diag (d : List String) : List (String × String) :=
  d.map fun s => (s, s)

/-- A pandas interaction table: unique plant row labels, unique
pollinator column labels, and a numeric cell for every row/column pair
(`0` meaning no recorded interaction). -/
structure Network where
  rows : List String
  cols : List String
  val : String → String → ℚ

/-- One of the two identical loop blocks of
`compare_network_interactions`: iterate the cells of `src`, counting
nonzero cells into the total and discrepancies against `tgt` (through
the two maps) into the missing count.  Both maps must be truthy
(`None` and `''` are falsy in Python) for the cell lookup branch. -/
def passStep (src tgt : Network) (rowMap colMap : String → Option String)
    (compareValue countNomaps : Bool) (plantName : String) (acc2 : ℕ × ℕ)
    (polName : String) : ℕ × ℕ :=
  let polInteraction := src.val plantName polName
  if polInteraction == 0 then acc2
  else
    let mappedPlant := rowMap plantName
    let mappedPol := colMap polName
    if !(truthyGet mappedPol && truthyGet mappedPlant) then
      (acc2.1 + 1, acc2.2 + (if countNomaps then 1 else 0))
    else
      let w := tgt.val (mappedPlant.getD "") (mappedPol.getD "")
      if (w != polInteraction && compareValue) || w == 0 then
        (acc2.1 + 1, acc2.2 + 1)
      else (acc2.1 + 1, acc2.2)

def interactionPass (src tgt : Network) (rowMap colMap : String → Option String)
    (compareValue countNomaps : Bool) : ℕ × ℕ :=
  src.rows.foldl
    (fun acc plantName =>
      src.cols.foldl (passStep src tgt rowMap colMap compareValue countNomaps plantName) acc)
    (0, 0)

/-- `compare_network_interactions` of the source: returns
`(net1_missing, net2_missing, net1_total, net2_total)`. -/
def compare_network_interactions (net1 net2 : Network)
    (plantMap12 plantMap21 polMap12 polMap21 : String → Option String)
    (compareValue countNomaps : Bool) : ℕ × ℕ × ℕ × ℕ :=
  let p1 := interactionPass net1 net2 plantMap12 polMap12 compareValue countNomaps
  let p2 := interactionPass net2 net1 plantMap21 polMap21 compareValue countNomaps
  (p2.2, p1.2, p1.1, p2.1)

/-- Access to a `None`-filled mapping dictionary as a partial function:
a key mapped to `None` and a key that is absent both read as `none`. -/
def dictFun (m : List (String × Option String)) : String → Option String :=
  fun k => (m.lookup k).join

/-- `compare_networks` of the source (the `duplicate_reason` parameter
only controls printing and is omitted).  Thresholds are computed in
exact rational arithmetic. -/
def compare_networks (net1 net2 : Network) (ct : ℚ) : Bool :=
  let plantsize1 : ℕ := net1.rows.length
  let polsize1 : ℕ := net1.cols.length
  let plantsize2 : ℕ := net2.rows.length
  let polsize2 : ℕ := net2.cols.length
  let plantThreshold : ℚ := ((plantsize1 : ℚ) + (plantsize2 : ℚ)) / 2 * ct
  let polThreshold : ℚ := ((polsize1 : ℚ) + (polsize2 : ℚ)) / 2 * ct
  if |(plantsize1 : ℚ) - (plantsize2 : ℚ)| > plantThreshold then false
  else if |(polsize1 : ℚ) - (polsize2 : ℚ)| > polThreshold then false
  else
    let mnPlants := map_nodeset net1.rows net2.rows
    let mnPols := map_nodeset net1.cols net2.cols
    if (((mnPlants.2.2.1 ++ mnPlants.2.2.2).dedup.length : ℚ)) > plantThreshold then false
    else if (((mnPols.2.2.1 ++ mnPols.2.2.2).dedup.length : ℚ)) > polThreshold then false
    else
      let counts := compare_network_interactions net1 net2
        (dictFun mnPlants.1) (dictFun mnPlants.2.1)
        (dictFun mnPols.1) (dictFun mnPols.2.1) false false
      let interactionThreshold : ℚ := ((counts.2.2.1 : ℚ) + (counts.2.2.2 : ℚ)) / 2 * ct
      if ((counts.1 : ℚ) + (counts.2.1 : ℚ)) > interactionThreshold then false
      else true

/-- Modelled from the spec: the tie-break of the Corpus Deduplicator
(`compare_all_networks` is imported by `src/mainframe.py` from
`duplicate_finder` but is absent from the source tree).  "`tieBreak`
prefers to keep the network with more plant rows; on a tie, more
pollinator columns; on a further tie, an injectable random choice".
Returns `true` when the second network (`j`) is the one to drop. -/
def tieBreak (netI netJ : Network) (rand : Network → Network → Bool) : Bool :=
  if netI.rows.length > netJ.rows.length then true
  else if netJ.rows.length > netI.rows.length then false
  else if netI.cols.length > netJ.cols.length then true
  else if netJ.cols.length > netI.cols.length then false
  else rand netI netJ

/-- Modelled from the spec: the inner `j` loop of `resolveDuplicates` —
skip excluded names, classify the pair, drop the tie-break loser, and
stop scanning when network `i` itself was dropped.  Returns the grown
exclusion set and whether `i` was dropped. -/
def resolveScan (nameI : String) (netI : Network) (rest : List (String × Network))
    (ct : ℚ) (rand : Network → Network → Bool) (excluded : List String) :
    List String × Bool :=
  match rest with
  | [] => (excluded, false)
  | (nameJ, netJ) :: rs =>
    if nameJ ∈ excluded then resolveScan nameI netI rs ct rand excluded
    else if compare_networks netI netJ ct then
      if tieBreak netI netJ rand then
        resolveScan nameI netI rs ct rand (excluded ++ [nameJ])
      else (excluded ++ [nameI], true)
    else resolveScan nameI netI rs ct rand excluded

/-- Modelled from the spec: `resolveDuplicates` /
`compare_all_networks(networks, threshold, drop_early)` — iterate the
corpus in insertion order, skip names already excluded, resolve every
detected duplicate pair through the tie-break, and return the final
exclusion set (which starts as a copy of `drop_early`). -/
def compare_all_networks (corpus : List (String × Network)) (ct : ℚ)
    (rand : Network → Network → Bool) (dropEarly : List String) : List String :=
  match corpus with
  | [] => dropEarly
  | (nameI, netI) :: rest =>
    if nameI ∈ dropEarly then compare_all_networks rest ct rand dropEarly
    else
      let res := resolveScan nameI netI rest ct rand dropEarly
      compare_all_networks rest ct rand res.1

/-- The cell grid of a table in the row-major order the source iterates
it (`iterrows` then `iteritems`). -/
def cellGrid (net : Network) : List (String × String) :=
  net.rows.flatMap fun r => net.cols.map fun c => (r, c)

/-- `totalIn` of the claim: the number of nonzero cells of a table. -/
def specTotalCount (src : Network) : ℕ :=
  (cellGrid src).countP fun rc => src.val rc.1 rc.2 != 0

/-- The per-cell missing test exactly as the source's branch computes it
(factored out of the fold for the characterization proof). -/
def passCellMissing (tgt : Network) (rowMap colMap : String → Option String)
    (compareValue countNomaps : Bool) (r c : String) (v : ℚ) : Bool :=
  if !(truthyGet (colMap c) && truthyGet (rowMap r)) then countNomaps
  else
    (tgt.val ((rowMap r).getD "") ((colMap c).getD "") != v && compareValue) ||
      (tgt.val ((rowMap r).getD "") ((colMap c).getD "") == 0)

/-- The claim's counting rule, amended where the counterexample forces
it: a nonzero source cell is counted missing from the target iff —
when its mapped row or mapped column is NONE **or the empty-string
label** (both falsy in Python) — `countUnmappedAsMissing` is set, and
otherwise iff the mapped target cell is zero or (`compareValue` is set
and its value differs from the source cell). -/
def specCellMissing (tgt : Network) (rowMap colMap : String → Option String)
    (compareValue countNomaps : Bool) (r c : String) (v : ℚ) : Bool :=
  if rowMap r = none ∨ rowMap r = some "" ∨ colMap c = none ∨ colMap c = some "" then
    countNomaps
  else
    (tgt.val ((rowMap r).getD "") ((colMap c).getD "") == 0) ||
      (compareValue && (tgt.val ((rowMap r).getD "") ((colMap c).getD "") != v))

/-- `missingIn` per the amended claim: count of nonzero source cells
whose image is missing under `specCellMissing`. -/
def specMissingCount (src tgt : Network) (rowMap colMap : String → Option String)
    (compareValue countNomaps : Bool) : ℕ :=
  (cellGrid src).countP fun rc =>
    (src.val rc.1 rc.2 != 0) &&
      specCellMissing tgt rowMap colMap compareValue countNomaps rc.1 rc.2
        (src.val rc.1 rc.2)

/-- The counting rule exactly as claim C3 states it, with the unmapped
branch taken only for a literal NONE (not for an empty-string label). -/
def claimCellMissing (tgt : Network) (rowMap colMap : String → Option String)
    (compareValue countNomaps : Bool) (r c : String) (v : ℚ) : Bool :=
  if rowMap r = none ∨ colMap c = none then countNomaps
  else
    (tgt.val ((rowMap r).getD "") ((colMap c).getD "") == 0) ||
      (compareValue && (tgt.val ((rowMap r).getD "") ((colMap c).getD "") != v))

/-- `missingIn` exactly as claim C3 states it. -/
def claimMissingCount (src tgt : Network) (rowMap colMap : String → Option String)
    (compareValue countNomaps : Bool) : ℕ :=
  (cellGrid src).countP fun rc =>
    (src.val rc.1 rc.2 != 0) &&
      claimCellMissing tgt rowMap colMap compareValue countNomaps rc.1 rc.2
        (src.val rc.1 rc.2)

/-- The per-cell missing test the classifier effectively runs
(`compare_value = False`, `count_nomaps = False`): a cell counts as
missing iff both of its coordinates map to truthy labels and the mapped
target cell is zero — value differences between two nonzero cells and
cells with an unmapped coordinate are never counted. -/
def classifierCellMissing (tgt : Network) (rowMap colMap : String → Option String)
    (r c : String) : Bool :=
  truthyGet (rowMap r) && truthyGet (colMap c) &&
    (tgt.val ((rowMap r).getD "") ((colMap c).getD "") == 0)

/-- The missing-interaction count as seen by the classifier. -/
def classifierMissingCount (src tgt : Network)
    (rowMap colMap : String → Option String) : ℕ :=
  (cellGrid src).countP fun rc =>
    (src.val rc.1 rc.2 != 0) && classifierCellMissing tgt rowMap colMap rc.1 rc.2

/-- `|unmapped1 ∪ unmapped2|` as the specification words it: the
cardinality of the union of the two unmapped label sets. -/
def unionCard (l1 l2 : List String) : ℕ := (l1.toFinset ∪ l2.toFinset).card

/-- The classifier gates with the interaction gate written through pure
zero-pattern counts: `compare_networks` invokes the comparator with
`compare_value = False` and `count_nomaps = False`, so during
classification a nonzero cell is counted missing exactly when both of
its coordinates map to truthy labels and the mapped target cell is
zero; value differences between two nonzero mapped cells and cells with
an untruthy-mapped coordinate never contribute. -/
def classifierZeroPatternGates (net1 net2 : Network) (ct : ℚ) : Prop :=
  let rows1 : ℚ := net1.rows.length
  let rows2 : ℚ := net2.rows.length
  let cols1 : ℚ := net1.cols.length
  let cols2 : ℚ := net2.cols.length
  let mnRows := map_nodeset net1.rows net2.rows
  let mnCols := map_nodeset net1.cols net2.cols
  ¬(|rows1 - rows2| > ct * ((rows1 + rows2) / 2)) ∧
  ¬(|cols1 - cols2| > ct * ((cols1 + cols2) / 2)) ∧
  ¬((unionCard mnRows.2.2.1 mnRows.2.2.2 : ℚ) > ct * ((rows1 + rows2) / 2)) ∧
  ¬((unionCard mnCols.2.2.1 mnCols.2.2.2 : ℚ) > ct * ((cols1 + cols2) / 2)) ∧
  ¬(((classifierMissingCount net2 net1 (dictFun mnRows.2.1) (dictFun mnCols.2.1) : ℚ)) +
      ((classifierMissingCount net1 net2 (dictFun mnRows.1) (dictFun mnCols.1) : ℚ)) >
      ct * ((((specTotalCount net1 : ℚ)) + ((specTotalCount net2 : ℚ))) / 2))

/-- The duplicate-classifier gates exactly as the specification words
them: mean-scaled row-size gate, column-size gate, the two
mapping-coverage gates over `|unmapped1 ∪ unmapped2|`, and the
interaction gate over `missingIn1 + missingIn2` against
`thresholdFraction * meanEdges`.  This definition follows the claim's
wording and is compared against the translated `compare_networks`. -/
def areDuplicatesSpec (net1 net2 : Network) (ct : ℚ) : Prop :=
  let rows1 : ℚ := net1.rows.length
  let rows2 : ℚ := net2.rows.length
  let cols1 : ℚ := net1.cols.length
  let cols2 : ℚ := net2.cols.length
  let mnRows := map_nodeset net1.rows net2.rows
  let mnCols := map_nodeset net1.cols net2.cols
  let counts := compare_network_interactions net1 net2
    (dictFun mnRows.1) (dictFun mnRows.2.1)
    (dictFun mnCols.1) (dictFun mnCols.2.1) false false
  ¬(|rows1 - rows2| > ct * ((rows1 + rows2) / 2)) ∧
  ¬(|cols1 - cols2| > ct * ((cols1 + cols2) / 2)) ∧
  ¬((unionCard mnRows.2.2.1 mnRows.2.2.2 : ℚ) > ct * ((rows1 + rows2) / 2)) ∧
  ¬((unionCard mnCols.2.2.1 mnCols.2.2.2 : ℚ) > ct * ((cols1 + cols2) / 2)) ∧
  ¬(((counts.1 : ℚ)) + ((counts.2.1 : ℚ)) >
      ct * ((((counts.2.2.1 : ℚ)) + ((counts.2.2.2 : ℚ))) / 2))

/-- A 2-plant network sharing its labels with `netEx3` and `netEx4`. -/
def netEx2 : Network := ⟨["p1", "p2"], ["c"], fun _ _ => 1⟩

/-- A 3-plant network: duplicate of `netEx2` and of `netEx4` at
threshold `1/2`. -/
def netEx3 : Network := ⟨["p1", "p2", "p3"], ["c"], fun _ _ => 1⟩

/-- A 4-plant network: duplicate of `netEx3` but not of `netEx2` (the
row-size gate rejects 2 against 4) at threshold `1/2`. -/
def netEx4 : Network := ⟨["p1", "p2", "p3", "p4"], ["c"], fun _ _ => 1⟩

/-- A greedy first-match tier on explicit availability lists: each
element of the first list in turn grabs the first remaining element of
the second list carrying the same key, provided the key is good.  This
is the mathematical core of one matching tier, used to prove the tiers
symmetric in their two sides. -/
def rowG {κ : Type} [DecidableEq κ] (K : SpeciesIdentifier → κ) (good : κ → Bool) :
    List SpeciesIdentifier → List SpeciesIdentifier →
      List (SpeciesIdentifier × SpeciesIdentifier)
  | [], _ => []
  | a :: xs, ys =>
    if good (K a) then
      match ys.find? fun b => K b == K a with
      | some b => (a, b) :: rowG K good xs (ys.erase b)
      | none => rowG K good xs ys
    else rowG K good xs ys

/-- Position of an element within its key class. -/
def idxK {κ : Type} [DecidableEq κ] (K : SpeciesIdentifier → κ)
    (x : SpeciesIdentifier) (l : List SpeciesIdentifier) : ℕ :=
  (l.filter fun y => K y == K x).indexOf x

/-- The tuple of field values a matching tier compares. -/
def tierKey (args : List ParamField) (a : SpeciesIdentifier) : List ExtraVal :=
  args.map (fval a)

/-- Whether a key tuple is eligible for matching in a tier:
`allow_empty`, or no compared field of the left element is `''`. -/
def tierGood (al : Bool) (k : List ExtraVal) : Bool :=
  al || k.all fun v => !(v == ExtraVal.str "")

section RatComputation

/- The Batteries definitions of rational arithmetic are `@[irreducible]`,
which blocks `decide` on concrete classifier runs; they are kernel-safe
to unfold, so make them semireducible for the proofs below. -/
attribute [local semireducible] Rat.mul Rat.add Rat.sub Rat.inv

/-- A five-gate short-circuit cascade returns `true` iff no gate fires. -/
theorem ite_cascade5 {c1 c2 c3 c4 c5 : Prop} [Decidable c1] [Decidable c2]
    [Decidable c3] [Decidable c4] [Decidable c5] :
    ((if c1 then false else if c2 then false else if c3 then false else
      if c4 then false else if c5 then false else true) = true) ↔
      (¬c1 ∧ ¬c2 ∧ ¬c3 ∧ ¬c4 ∧ ¬c5) := by
  split_ifs <;> simp_all

/-- The length of the deduplicated concatenation of two label lists is
the cardinality of the union of the corresponding finite sets. -/
theorem dedup_length_eq_unionCard (l1 l2 : List String) :
    (l1 ++ l2).dedup.length = unionCard l1 l2 := by
  rw [unionCard, ← List.toFinset_append, List.card_toFinset]

/-- C1: `compare_networks` evaluates the four mean-scaled gates of the
specification (row size, column size, row/column mapping coverage,
interaction discrepancy) and returns `true` exactly when every gate
passes; each `false` exit corresponds to the first failing gate of the
short-circuit cascade. -/
theorem compare_networks_gate_cascade (net1 net2 : Network) (ct : ℚ) :
    compare_networks net1 net2 ct = true ↔ areDuplicatesSpec net1 net2 ct := by
  unfold compare_networks areDuplicatesSpec
  dsimp only
  rw [ite_cascade5]
  refine and_congr (not_congr ?_) (and_congr (not_congr ?_) (and_congr (not_congr ?_)
    (and_congr (not_congr ?_) (not_congr ?_))))
  · rw [mul_comm]
  · rw [mul_comm]
  · rw [dedup_length_eq_unionCard, mul_comm]
  · rw [dedup_length_eq_unionCard, mul_comm]
  · rw [mul_comm]

/-- The source's per-cell branch equals the amended claim's per-cell
rule: Python truthiness makes both `None` and `''` unmapped cases, and
the two disjuncts of the else-branch commute. -/
theorem passCellMissing_eq_spec (tgt : Network) (rowMap colMap : String → Option String)
    (cv cn : Bool) (r c : String) (v : ℚ) :
    passCellMissing tgt rowMap colMap cv cn r c v =
      specCellMissing tgt rowMap colMap cv cn r c v := by
  unfold passCellMissing specCellMissing truthyGet
  rcases hr : rowMap r with _ | s
  · rcases hc : colMap c with _ | t <;> simp
  · rcases hc : colMap c with _ | t
    · simp
    · by_cases hs : s = "" <;> by_cases ht : t = "" <;>
        simp [hs, ht] <;> cases cv <;> simp [Bool.or_comm]

/-- One `passStep` adds the indicator of a nonzero cell to the total and
the indicator of a missing nonzero cell to the missing count. -/
theorem passStep_char (src tgt : Network) (rowMap colMap : String → Option String)
    (cv cn : Bool) (r : String) (acc : ℕ × ℕ) (c : String) :
    passStep src tgt rowMap colMap cv cn r acc c =
      (acc.1 + (if (src.val r c != 0) then 1 else 0),
       acc.2 + (if ((src.val r c != 0) &&
           passCellMissing tgt rowMap colMap cv cn r c (src.val r c)) then 1 else 0)) := by
  unfold passStep passCellMissing
  simp only [bne]
  by_cases h0 : (src.val r c == 0) = true
  · simp [h0]
  · rw [Bool.not_eq_true] at h0
    by_cases hm : (truthyGet (colMap c) && truthyGet (rowMap r)) = true
    · by_cases hw : ((!(tgt.val ((rowMap r).getD "") ((colMap c).getD "") == src.val r c)) && cv
          || (tgt.val ((rowMap r).getD "") ((colMap c).getD "") == 0)) = true
      · simp [h0, hm, hw]
      · rw [Bool.not_eq_true] at hw
        simp [h0, hm, hw]
    · rw [Bool.not_eq_true] at hm
      simp [h0, hm]

/-- The inner column fold of an interaction pass counts, per row, the
nonzero cells and the missing nonzero cells of that row. -/
theorem interaction_inner_fold (src tgt : Network) (rowMap colMap : String → Option String)
    (cv cn : Bool) (r : String) (cols : List String) (acc : ℕ × ℕ) :
    cols.foldl (passStep src tgt rowMap colMap cv cn r) acc =
      (acc.1 + cols.countP (fun c => src.val r c != 0),
       acc.2 + cols.countP (fun c => (src.val r c != 0) &&
         passCellMissing tgt rowMap colMap cv cn r c (src.val r c))) := by
  induction cols generalizing acc with
  | nil => simp
  | cons c cs ih =>
    rw [List.foldl_cons, passStep_char, ih, List.countP_cons, List.countP_cons]
    refine Prod.ext ?_ ?_ <;> dsimp only <;> omega

/-- One interaction pass returns the nonzero-cell total of the source
table and the amended claim's missing count against the target. -/
theorem interactionPass_eq (src tgt : Network) (rowMap colMap : String → Option String)
    (cv cn : Bool) :
    interactionPass src tgt rowMap colMap cv cn =
      (specTotalCount src, specMissingCount src tgt rowMap colMap cv cn) := by
  unfold interactionPass specTotalCount specMissingCount cellGrid
  suffices h : ∀ (rows : List String) (acc : ℕ × ℕ),
      rows.foldl (fun acc r =>
        src.cols.foldl (passStep src tgt rowMap colMap cv cn r) acc) acc =
        (acc.1 + (rows.flatMap fun r => src.cols.map fun c => (r, c)).countP
            (fun rc => src.val rc.1 rc.2 != 0),
         acc.2 + (rows.flatMap fun r => src.cols.map fun c => (r, c)).countP
            (fun rc => (src.val rc.1 rc.2 != 0) &&
              specCellMissing tgt rowMap colMap cv cn rc.1 rc.2 (src.val rc.1 rc.2))) by
    rw [h src.rows (0, 0)]
    simp
  intro rows
  induction rows with
  | nil => simp
  | cons r rs ih =>
    intro acc
    rw [List.foldl_cons, interaction_inner_fold, ih]
    simp only [List.flatMap_cons, List.countP_append, List.countP_map, Function.comp_def]
    simp only [passCellMissing_eq_spec]
    refine Prod.ext ?_ ?_ <;> dsimp only <;> omega

/-- C3 (amended): `compare_network_interactions` counts exactly as the
claim states, once "mapped to NONE" is widened to "mapped to NONE or to
the empty-string label" (Python truthiness): the quadruple is
`(missingIn1, missingIn2, totalIn1, totalIn2)` with each component a
per-cell count over one table, the two passes independent of each
other. -/
theorem compare_network_interactions_counts (net1 net2 : Network)
    (pm12 pm21 cm12 cm21 : String → Option String) (cv cn : Bool) :
    compare_network_interactions net1 net2 pm12 pm21 cm12 cm21 cv cn =
      (specMissingCount net2 net1 pm21 cm21 cv cn,
       specMissingCount net1 net2 pm12 cm12 cv cn,
       specTotalCount net1, specTotalCount net2) := by
  unfold compare_network_interactions
  rw [interactionPass_eq, interactionPass_eq]

/-- With both comparator flags off, the amended per-cell rule collapses
to the pure zero-pattern test. -/
theorem specCellMissing_flags_off (tgt : Network) (rowMap colMap : String → Option String)
    (r c : String) (v : ℚ) :
    specCellMissing tgt rowMap colMap false false r c v =
      classifierCellMissing tgt rowMap colMap r c := by
  unfold specCellMissing classifierCellMissing truthyGet
  rcases hr : rowMap r with _ | s
  · simp
  · rcases hc : colMap c with _ | t
    · simp
    · by_cases hs : s = "" <;> by_cases ht : t = "" <;> simp [hs, ht]

/-- With both comparator flags off, the missing count is the
zero-pattern count. -/
theorem specMissingCount_flags_off (src tgt : Network)
    (rowMap colMap : String → Option String) :
    specMissingCount src tgt rowMap colMap false false =
      classifierMissingCount src tgt rowMap colMap := by
  unfold specMissingCount classifierMissingCount
  simp only [specCellMissing_flags_off]

/-- C10: `compare_networks` runs the interaction comparator with
`compare_value = False` and `count_nomaps = False`, so its verdict
depends on cell values only through their zero pattern: the interaction
gate counts a nonzero cell as missing iff both coordinates map to
truthy labels and the mapped cell of the other network is zero —
never because two nonzero values differ, and never because a
coordinate is unmapped. -/
theorem compare_networks_zero_pattern_gates (net1 net2 : Network) (ct : ℚ) :
    compare_networks net1 net2 ct = true ↔ classifierZeroPatternGates net1 net2 ct := by
  unfold compare_networks classifierZeroPatternGates
  simp only [compare_network_interactions, interactionPass_eq, specMissingCount_flags_off]
  rw [ite_cascade5]
  refine and_congr (not_congr ?_) (and_congr (not_congr ?_) (and_congr (not_congr ?_)
    (and_congr (not_congr ?_) (not_congr ?_))))
  · rw [mul_comm]
  · rw [mul_comm]
  · rw [dedup_length_eq_unionCard, mul_comm]
  · rw [dedup_length_eq_unionCard, mul_comm]
  · rw [mul_comm]

/-- C3 (counterexample): with a mapping sending the only row of `net1`
to the *empty-string* row label of `net2` (not NONE), the code takes the
Python-falsy unmapped branch and reports `missingIn2 = 0`, while the
claim's counting rule, read literally (NONE only), inspects the mapped
cell (which is zero) and demands `missingIn2 = 1`. -/
theorem interaction_none_vs_falsy_counterexample :
    compare_network_interactions ⟨["a"], ["b"], fun _ _ => 1⟩ ⟨[""], ["c"], fun _ _ => 0⟩
        (fun _ => some "") (fun _ => none) (fun _ => some "c") (fun _ => none)
        false false = (0, 0, 1, 0) ∧
      claimMissingCount ⟨["a"], ["b"], fun _ _ => 1⟩ ⟨[""], ["c"], fun _ _ => 0⟩
        (fun _ => some "") (fun _ => some "c") false false = 1 := by decide

/-- Lookup distributes over append; the left list wins. -/
theorem lookup_append {β : Type} (l1 l2 : List (String × β)) (k : String) :
    (l1 ++ l2).lookup k = if (l1.lookup k).isSome then l1.lookup k else l2.lookup k := by
  induction l1 with
  | nil => simp
  | cons p t ih =>
    obtain ⟨k', v⟩ := p
    rw [List.cons_append]
    simp only [List.lookup_cons]
    by_cases hk : (k == k') = true
    · simp [hk]
    · rw [Bool.not_eq_true] at hk
      simp only [hk]
      exact ih

/-- Lookup commutes with mapping the values of an association list. -/
theorem lookup_map_value {β γ : Type} (f : β → γ) (m : List (String × β)) (k : String) :
    (m.map fun p => (p.1, f p.2)).lookup k = (m.lookup k).map f := by
  induction m with
  | nil => simp
  | cons p t ih =>
    obtain ⟨k', v⟩ := p
    rw [List.map_cons]
    simp only [List.lookup_cons]
    by_cases hk : (k == k') = true
    · simp [hk]
    · rw [Bool.not_eq_true] at hk
      simp only [hk]
      exact ih

/-- A successful lookup exhibits a member pair. -/
theorem mem_of_lookup_eq_some {β : Type} {m : List (String × β)} {k : String} {v : β}
    (h : m.lookup k = some v) : (k, v) ∈ m := by
  induction m with
  | nil => simp at h
  | cons p t ih =>
    obtain ⟨k', v'⟩ := p
    simp only [List.lookup_cons] at h
    by_cases hk : (k == k') = true
    · rw [hk] at h
      obtain rfl : v' = v := by injection h
      have hkk : k = k' := by simpa using hk
      subst hkk
      exact List.mem_cons_self _ _
    · rw [Bool.not_eq_true] at hk
      rw [hk] at h
      exact List.mem_cons_of_mem _ (ih h)

/-- On an association list with distinct keys, membership determines
the lookup. -/
theorem lookup_eq_some_of_mem_nodup {β : Type} {m : List (String × β)} {k : String} {v : β}
    (hn : (m.map Prod.fst).Nodup) (h : (k, v) ∈ m) : m.lookup k = some v := by
  induction m with
  | nil => simp at h
  | cons p t ih =>
    obtain ⟨k', v'⟩ := p
    rw [List.map_cons, List.nodup_cons] at hn
    rcases List.mem_cons.mp h with heq | hmem
    · injection heq with h1 h2
      subst h1
      subst h2
      simp [List.lookup_cons]
    · have hk : k ≠ k' := by
        intro hkk
        subst hkk
        exact hn.1 (List.mem_map.mpr ⟨_, hmem, rfl⟩)
      have hkb : (k == k') = false := by simpa using hk
      simp only [List.lookup_cons, hkb]
      exact ih hn.2 hmem

/-- A `none` lookup means the key is absent. -/
theorem lookup_eq_none_iff {β : Type} (m : List (String × β)) (k : String) :
    m.lookup k = none ↔ k ∉ m.map Prod.fst := by
  induction m with
  | nil => simp
  | cons p t ih =>
    obtain ⟨k', v⟩ := p
    rw [List.map_cons]
    simp only [List.lookup_cons]
    by_cases hk : (k == k') = true
    · simp [hk, eq_of_beq hk]
    · have hne : k ≠ k' := by simpa using hk
      rw [Bool.not_eq_true] at hk
      simp [hk, hne, ih]

/-- The inner scan preserves the matcher's bookkeeping invariant: the
two maps mirror each other and each has distinct keys.  The scanned
element's origin must be a fresh key of the forward map. -/
theorem map_nodeset_scan_inv (a : SpeciesIdentifier) (s2 : List SpeciesIdentifier)
    (m12 m21 : List (String × String)) (al : Bool) (args : List ParamField)
    (hswap : m21 = swapPairs m12) (h12 : (m12.map Prod.fst).Nodup)
    (h21 : (m21.map Prod.fst).Nodup) (ha : m12.lookup a.origin = none) :
    (map_nodeset_scan a s2 m12 m21 al args).2 =
        swapPairs (map_nodeset_scan a s2 m12 m21 al args).1 ∧
      (((map_nodeset_scan a s2 m12 m21 al args).1).map Prod.fst).Nodup ∧
      (((map_nodeset_scan a s2 m12 m21 al args).2).map Prod.fst).Nodup := by
  induction s2 with
  | nil => exact ⟨hswap, h12, h21⟩
  | cons b t ih =>
    unfold map_nodeset_scan
    by_cases hb : ((m21.lookup b.origin).isSome) = true
    · rw [if_pos hb]
      exact ih
    · have hbn : m21.lookup b.origin = none := by
        rcases h : m21.lookup b.origin with _ | w
        · rfl
        · rw [h] at hb
          simp at hb
      rw [if_neg hb]
      by_cases hc : (parameterized_compare a b al args
          && !truthyGet (m21.lookup b.origin)) = true
      · rw [if_pos hc]
        refine ⟨?_, ?_, ?_⟩
        · rw [hswap]
          simp [swapPairs]
        · rw [List.map_append]
          rw [List.nodup_append]
          refine ⟨h12, by simp, ?_⟩
          intro x hx hx'
          simp at hx'
          subst hx'
          exact ((lookup_eq_none_iff m12 a.origin).mp ha) hx
        · rw [List.map_append]
          rw [List.nodup_append]
          refine ⟨h21, by simp, ?_⟩
          intro x hx hx'
          simp at hx'
          subst hx'
          exact ((lookup_eq_none_iff m21 b.origin).mp hbn) hx
      · rw [if_neg hc]
        exact ih

/-- One matching tier preserves the bookkeeping invariant. -/
theorem map_nodeset_by_parameters_inv (s1 s2 : List SpeciesIdentifier)
    (ce : Bool) (args : List ParamField) :
    ∀ (m12 m21 : List (String × String)), m21 = swapPairs m12 →
      (m12.map Prod.fst).Nodup → (m21.map Prod.fst).Nodup →
      (map_nodeset_by_parameters s1 s2 m12 m21 ce args).2 =
          swapPairs (map_nodeset_by_parameters s1 s2 m12 m21 ce args).1 ∧
        (((map_nodeset_by_parameters s1 s2 m12 m21 ce args).1).map Prod.fst).Nodup ∧
        (((map_nodeset_by_parameters s1 s2 m12 m21 ce args).2).map Prod.fst).Nodup := by
  induction s1 with
  | nil =>
    intro m12 m21 hswap h12 h21
    exact ⟨hswap, h12, h21⟩
  | cons a t ih =>
    intro m12 m21 hswap h12 h21
    unfold map_nodeset_by_parameters
    by_cases hk : ((m12.lookup a.origin).isSome) = true
    · rw [if_pos hk]
      exact ih m12 m21 hswap h12 h21
    · have hkn : m12.lookup a.origin = none := by
        rcases h : m12.lookup a.origin with _ | w
        · rfl
        · rw [h] at hk
          simp at hk
      rw [if_neg hk]
      have hs := map_nodeset_scan_inv a s2 m12 m21 (!ce) args hswap h12 h21 hkn
      exact ih _ _ hs.1 hs.2.1 hs.2.2

/-- The full five-tier pipeline establishes the bookkeeping invariant
from the empty maps. -/
theorem map_nodeset_tiers_inv (pset1 pset2 : List SpeciesIdentifier) :
    (map_nodeset_tiers pset1 pset2).2 = swapPairs (map_nodeset_tiers pset1 pset2).1 ∧
      (((map_nodeset_tiers pset1 pset2).1).map Prod.fst).Nodup ∧
      (((map_nodeset_tiers pset1 pset2).2).map Prod.fst).Nodup := by
  unfold map_nodeset_tiers
  simp only [List.foldl_cons, List.foldl_nil]
  have i0 := map_nodeset_by_parameters_inv pset1 pset2 true [.origin] [] []
    rfl (by simp) (by simp)
  have i1 := map_nodeset_by_parameters_inv pset1 pset2 false
    (nonspecificParameters.take 4) _ _ i0.1 i0.2.1 i0.2.2
  have i2 := map_nodeset_by_parameters_inv pset1 pset2 false
    (nonspecificParameters.take 3) _ _ i1.1 i1.2.1 i1.2.2
  have i3 := map_nodeset_by_parameters_inv pset1 pset2 false
    (nonspecificParameters.take 2) _ _ i2.1 i2.2.1 i2.2.2
  exact map_nodeset_by_parameters_inv pset1 pset2 true [.species] _ _ i3.1 i3.2.1 i3.2.2

/-- `map_non_matches` does not change the value of a key that is
already present. -/
theorem map_non_matches_lookup_present {ks : List String}
    {m : List (String × Option String)} {k : String}
    (h : (m.lookup k).isSome) :
    (map_non_matches ks m).lookup k = m.lookup k := by
  induction ks generalizing m with
  | nil => rfl
  | cons k' t ih =>
    unfold map_non_matches
    by_cases hk' : ((m.lookup k').isSome) = true
    · rw [if_pos hk']
      exact ih h
    · rw [if_neg hk']
      have hpres : (((m ++ [(k', none)]).lookup k).isSome) = true := by
        rw [lookup_append, if_pos h]
        exact h
      rw [@ih (m ++ [(k', none)]) hpres, lookup_append, if_pos h]

/-- After `map_non_matches`, every key of `key_set` is present. -/
theorem map_non_matches_lookup_isSome {ks : List String}
    {m : List (String × Option String)} {k : String} (h : k ∈ ks) :
    ((map_non_matches ks m).lookup k).isSome := by
  induction ks generalizing m with
  | nil => simp at h
  | cons k' t ih =>
    unfold map_non_matches
    rcases List.mem_cons.mp h with rfl | hmem
    · by_cases hk' : ((m.lookup k).isSome) = true
      · rw [if_pos hk']
        by_cases hkt : k ∈ t
        · exact ih hkt
        · rw [map_non_matches_lookup_present hk']
          exact hk'
      · rw [if_neg hk']
        have hpresent : ((m ++ [(k, none)]).lookup k).isSome := by
          rw [lookup_append, if_neg (by simpa using hk')]
          simp
        by_cases hkt : k ∈ t
        · exact ih hkt
        · rw [map_non_matches_lookup_present hpresent]
          exact hpresent
    · by_cases hk' : ((m.lookup k').isSome) = true
      · rw [if_pos hk']
        exact ih hmem
      · rw [if_neg hk']
        exact ih hmem

/-- `map_non_matches` only ever adds `None` values: a non-`None` lookup
result was already in the original mapping. -/
theorem map_non_matches_lookup_some {ks : List String}
    {m : List (String × Option String)} {k v : String}
    (h : (map_non_matches ks m).lookup k = some (some v)) :
    m.lookup k = some (some v) := by
  induction ks generalizing m with
  | nil => exact h
  | cons k' t ih =>
    unfold map_non_matches at h
    by_cases hk' : ((m.lookup k').isSome) = true
    · rw [if_pos hk'] at h
      exact ih h
    · rw [if_neg hk'] at h
      have h2 := ih h
      rw [lookup_append] at h2
      by_cases hm : ((m.lookup k).isSome) = true
      · rw [if_pos hm] at h2
        exact h2
      · rw [if_neg hm] at h2
        simp only [List.lookup_cons] at h2
        by_cases hkk : (k == k') = true
        · rw [hkk] at h2
          simp at h2
        · rw [Bool.not_eq_true] at hkk
          rw [hkk] at h2
          simp at h2

/-- C4: the maps returned by `map_nodeset` satisfy the NodeMapping
invariant: every element of `set1` is a key of the forward map and
every element of `set2` a key of the reverse map (unmapped elements
carry NONE); whenever `forward[a] = b` with `b ≠ NONE` then
`reverse[b] = a`; and no two distinct elements map to the same
non-NONE target. -/
theorem map_nodeset_mapping_invariant (set1 set2 : List String) :
    (∀ a ∈ set1, (((map_nodeset set1 set2).1).lookup a).isSome) ∧
      (∀ b ∈ set2, (((map_nodeset set1 set2).2.1).lookup b).isSome) ∧
      (∀ a b, ((map_nodeset set1 set2).1).lookup a = some (some b) →
        ((map_nodeset set1 set2).2.1).lookup b = some (some a)) ∧
      (∀ a a' b, ((map_nodeset set1 set2).1).lookup a = some (some b) →
        ((map_nodeset set1 set2).1).lookup a' = some (some b) → a = a') := by
  unfold map_nodeset
  dsimp only
  have hinv := map_nodeset_tiers_inv (set1.map species_pattern) (set2.map species_pattern)
  set ms2 := map_nodeset_tiers (set1.map species_pattern) (set2.map species_pattern)
    with hms2
  have key12 : ∀ a b, (map_non_matches set1 (ms2.1.map fun p => (p.1, some p.2))).lookup a
      = some (some b) → ms2.1.lookup a = some b := by
    intro a b h
    have h2 := map_non_matches_lookup_some h
    rw [lookup_map_value] at h2
    rcases Option.map_eq_some'.mp h2 with ⟨w, hw, hww⟩
    injection hww with h3
    rw [hw, h3]
  refine ⟨?_, ?_, ?_, ?_⟩
  · intro a ha
    exact map_non_matches_lookup_isSome ha
  · intro b hb
    exact map_non_matches_lookup_isSome hb
  · intro a b h
    have h1 : ms2.1.lookup a = some b := key12 a b h
    have hmem : (a, b) ∈ ms2.1 := mem_of_lookup_eq_some h1
    have hmem' : (b, a) ∈ ms2.2 := by
      rw [hinv.1]
      exact List.mem_map.mpr ⟨(a, b), hmem, rfl⟩
    have h2 : ms2.2.lookup b = some a := lookup_eq_some_of_mem_nodup hinv.2.2 hmem'
    have h3 : ((ms2.2.map fun p => (p.1, some p.2)).lookup b).isSome := by
      rw [lookup_map_value, h2]
      simp
    rw [map_non_matches_lookup_present h3, lookup_map_value, h2]
    rfl
  · intro a a' b h h'
    have hmem : (a, b) ∈ ms2.1 := mem_of_lookup_eq_some (key12 a b h)
    have hmem' : (a', b) ∈ ms2.1 := mem_of_lookup_eq_some (key12 a' b h')
    have hm1 : (b, a) ∈ ms2.2 := by
      rw [hinv.1]
      exact List.mem_map.mpr ⟨(a, b), hmem, rfl⟩
    have hm2 : (b, a') ∈ ms2.2 := by
      rw [hinv.1]
      exact List.mem_map.mpr ⟨(a', b), hmem', rfl⟩
    have e1 := lookup_eq_some_of_mem_nodup hinv.2.2 hm1
    have e2 := lookup_eq_some_of_mem_nodup hinv.2.2 hm2
    rw [e1] at e2
    injection e2

/-- Both branches of the parser carry the raw label through as `origin`. -/
theorem species_pattern_origin (s : String) : (species_pattern s).origin = s := by
  unfold species_pattern
  dsimp only
  split
  · rfl
  · split <;> rfl

/-- `find?` returns the unique element satisfying the predicate. -/
theorem find_unique {α : Type} {p : α → Bool} {l : List α} {a : α}
    (ha : a ∈ l) (hp : p a = true) (hu : ∀ b ∈ l, p b = true → b = a) :
    l.find? p = some a := by
  induction l with
  | nil => simp at ha
  | cons x t ih =>
    by_cases hx : p x = true
    · rw [List.find?_cons_of_pos _ hx]
      rw [hu x (List.mem_cons_self x t) hx]
    · rw [List.find?_cons_of_neg _ hx]
      rcases List.mem_cons.mp ha with rfl | hmem
      · exact absurd hp hx
      · exact ih hmem fun b hb hpb => hu b (List.mem_cons_of_mem _ hb) hpb

/-- The inner scan is the first-match search of the claim: it pairs the
scanned element with the first still-unmapped compatible element of
`set2`, or leaves the maps unchanged. -/
theorem map_nodeset_scan_eq (a : SpeciesIdentifier) (s2 : List SpeciesIdentifier)
    (m12 m21 : List (String × String)) (al : Bool) (args : List ParamField) :
    map_nodeset_scan a s2 m12 m21 al args =
      match (s2.filter fun b => (m21.lookup b.origin).isNone).find?
          (fun b => parameterized_compare a b al args) with
      | some b => (m12 ++ [(a.origin, b.origin)], m21 ++ [(b.origin, a.origin)])
      | none => (m12, m21) := by
  induction s2 with
  | nil => rfl
  | cons b t ih =>
    unfold map_nodeset_scan
    by_cases hb : ((m21.lookup b.origin).isSome) = true
    · rw [if_pos hb, ih]
      have hni : ((m21.lookup b.origin).isNone) = false := by
        rcases h : m21.lookup b.origin with _ | w
        · rw [h] at hb
          simp at hb
        · simp
      rw [List.filter_cons, if_neg (by simp [hni])]
    · have hbn : m21.lookup b.origin = none := by
        rcases h : m21.lookup b.origin with _ | w
        · rfl
        · rw [h] at hb
          simp at hb
      rw [if_neg hb]
      by_cases hc : (parameterized_compare a b al args) = true
      · have hcond : (parameterized_compare a b al args
            && !truthyGet (m21.lookup b.origin)) = true := by
          rw [hbn, hc]
          rfl
        rw [if_pos hcond]
        rw [List.filter_cons, if_pos (by simp [hbn])]
        have hfind : List.find? (fun x => parameterized_compare a x al args)
            (b :: List.filter (fun x => (m21.lookup x.origin).isNone) t) = some b :=
          List.find?_cons_of_pos _ hc
        rw [hfind]
      · have hcond : (parameterized_compare a b al args
            && !truthyGet (m21.lookup b.origin)) = false := by
          rw [Bool.not_eq_true] at hc
          rw [hc]
          rfl
        rw [if_neg (by rw [hcond]; simp)]
        rw [ih]
        rw [List.filter_cons, if_pos (by simp [hbn])]
        have hfind : List.find? (fun x => parameterized_compare a x al args)
            (b :: List.filter (fun x => (m21.lookup x.origin).isNone) t) =
            List.find? (fun x => parameterized_compare a x al args)
              (List.filter (fun x => (m21.lookup x.origin).isNone) t) :=
          List.find?_cons_of_neg _ hc
        rw [hfind]

/-- The scan never removes a key from the forward map. -/
theorem map_nodeset_scan_isSome (a : SpeciesIdentifier) (s2 : List SpeciesIdentifier)
    (m12 m21 : List (String × String)) (al : Bool) (args : List ParamField) (k : String)
    (h : ((m12.lookup k).isSome) = true) :
    ((((map_nodeset_scan a s2 m12 m21 al args).1).lookup k).isSome) = true := by
  rw [map_nodeset_scan_eq]
  rcases hf : (s2.filter fun b => (m21.lookup b.origin).isNone).find?
      (fun b => parameterized_compare a b al args) with _ | b
  · rw [hf]
    exact h
  · rw [hf]
    show (((m12 ++ [(a.origin, b.origin)]).lookup k).isSome) = true
    rw [lookup_append, if_pos h]
    exact h

/-- Every identifier is `parameterized_compare`-equal to itself when
empty matches are allowed. -/
theorem parameterized_compare_self (a : SpeciesIdentifier) (args : List ParamField) :
    parameterized_compare a a true args = true := by
  unfold parameterized_compare
  by_cases h : args.isEmpty = true
  · rw [if_pos h]
    simp
  · rw [if_neg h]
    simp

/-- The exact-origin tier predicate: equal nonempty origins (the source
passes `allow_empty = not cmp_empty = false` here). -/
theorem parameterized_compare_origin (a b : SpeciesIdentifier) :
    parameterized_compare a b false [.origin] = true ↔
      (a.origin = b.origin ∧ a.origin ≠ "") := by
  unfold parameterized_compare
  simp [fval]

/-- Lookup in the identity association list. -/
theorem diag_lookup (d : List String) (k : String) :
    (diag d).lookup k = if k ∈ d then some k else none := by
  induction d with
  | nil => simp [diag]
  | cons x t ih =>
    have dc : diag (x :: t) = (x, x) :: diag t := rfl
    rw [dc]
    simp only [List.lookup_cons]
    by_cases hk : (k == x) = true
    · have hkx := eq_of_beq hk
      subst hkx
      simp [hk]
    · have hne : k ≠ x := by simpa using hk
      rw [Bool.not_eq_true] at hk
      simp only [hk, ih]
      simp [hne]

/-- A tier over a set whose elements are all already mapped is a no-op. -/
theorem map_nodeset_by_parameters_skip (s1 s2 : List SpeciesIdentifier)
    (m12 m21 : List (String × String)) (ce : Bool) (args : List ParamField)
    (h : ∀ a ∈ s1, ((m12.lookup a.origin).isSome) = true) :
    map_nodeset_by_parameters s1 s2 m12 m21 ce args = (m12, m21) := by
  induction s1 with
  | nil => rfl
  | cons a t ih =>
    unfold map_nodeset_by_parameters
    rw [if_pos (h a (List.mem_cons_self a t))]
    exact ih fun b hb => h b (List.mem_cons_of_mem _ hb)

/-- Running the exact-origin tier of a parsed label set against itself
maps every element with nonempty origin to itself, in input order. -/
theorem tier0_self (l : List SpeciesIdentifier)
    (hn : (l.map SpeciesIdentifier.origin).Nodup) :
    ∀ (suff pre : List SpeciesIdentifier), l = pre ++ suff →
      map_nodeset_by_parameters suff l
          (diag ((pre.filter fun x => x.origin != "").map SpeciesIdentifier.origin))
          (diag ((pre.filter fun x => x.origin != "").map SpeciesIdentifier.origin))
          true [.origin] =
        (diag ((l.filter fun x => x.origin != "").map SpeciesIdentifier.origin),
         diag ((l.filter fun x => x.origin != "").map SpeciesIdentifier.origin)) := by
  intro suff
  induction suff with
  | nil =>
    intro pre hpre
    rw [List.append_nil] at hpre
    subst hpre
    rfl
  | cons a t ih =>
    intro pre hpre
    have hal : a ∈ l := by
      rw [hpre]
      exact List.mem_append_right _ (List.mem_cons_self a t)
    have hdisj : a.origin ∉ pre.map SpeciesIdentifier.origin := by
      intro hmem
      rw [hpre, List.map_append, List.nodup_append] at hn
      refine hn.2.2 hmem ?_
      simp only [List.map_cons]
      exact List.mem_cons_self _ _
    have hnotin : a.origin ∉
        (pre.filter fun x => x.origin != "").map SpeciesIdentifier.origin := by
      intro hmem
      rcases List.mem_map.mp hmem with ⟨x, hx, hxo⟩
      exact hdisj (List.mem_map.mpr ⟨x, List.mem_of_mem_filter hx, hxo⟩)
    have hlookup : (diag ((pre.filter fun x => x.origin != "").map
        SpeciesIdentifier.origin)).lookup a.origin = none := by
      rw [diag_lookup, if_neg hnotin]
    unfold map_nodeset_by_parameters
    rw [if_neg (by rw [hlookup]; simp)]
    dsimp only
    rw [map_nodeset_scan_eq]
    by_cases ha : (a.origin != "") = true
    · have hfind : (l.filter fun b =>
          ((diag ((pre.filter fun x => x.origin != "").map
            SpeciesIdentifier.origin)).lookup b.origin).isNone).find?
          (fun b => parameterized_compare a b (!true) [.origin]) = some a := by
        apply find_unique
        · exact List.mem_filter.mpr ⟨hal, by rw [hlookup]; rfl⟩
        · exact (parameterized_compare_origin a a).mpr ⟨rfl, by simpa using ha⟩
        · intro b hb hpb
          have hbo := ((parameterized_compare_origin a b).mp hpb).1
          exact List.inj_on_of_nodup_map hn (List.mem_filter.mp hb).1 hal hbo.symm
      rw [hfind]
      dsimp only
      have hdg : diag ((pre.filter fun x => x.origin != "").map SpeciesIdentifier.origin)
          ++ [(a.origin, a.origin)] =
          diag (((pre ++ [a]).filter fun x => x.origin != "").map
            SpeciesIdentifier.origin) := by
        rw [List.filter_append, List.map_append]
        simp [diag, List.filter, ha]
      rw [hdg]
      exact ih (pre ++ [a]) (by rw [hpre]; simp)
    · have ha' : a.origin = "" := by simpa using ha
      have hfind : (l.filter fun b =>
          ((diag ((pre.filter fun x => x.origin != "").map
            SpeciesIdentifier.origin)).lookup b.origin).isNone).find?
          (fun b => parameterized_compare a b (!true) [.origin]) = none := by
        rw [List.find?_eq_none]
        intro b hb hpb
        exact ((parameterized_compare_origin a b).mp hpb).2 ha'
      rw [hfind]
      dsimp only
      have hfl : ((pre ++ [a]).filter fun x => x.origin != "") =
          pre.filter fun x => x.origin != "" := by
        rw [List.filter_append]
        simp [List.filter, ha']
      have hrec := ih (pre ++ [a]) (by rw [hpre]; simp)
      rw [hfl] at hrec
      exact hrec

/-- A tier in which exactly one element of `set1` (present, unmapped)
can act reduces to that element's scan: everyone else skips. -/
theorem map_nodeset_by_parameters_single (s1 s2 : List SpeciesIdentifier)
    (m12 m21 : List (String × String)) (ce : Bool) (args : List ParamField)
    (e : SpeciesIdentifier) (hnd : s1.Nodup) (he : e ∈ s1)
    (hothers : ∀ a ∈ s1, a ≠ e → ((m12.lookup a.origin).isSome) = true)
    (hekey : m12.lookup e.origin = none) :
    map_nodeset_by_parameters s1 s2 m12 m21 ce args =
      map_nodeset_scan e s2 m12 m21 (!ce) args := by
  induction s1 with
  | nil => simp at he
  | cons a t ih =>
    unfold map_nodeset_by_parameters
    rcases List.mem_cons.mp he with rfl | hmem
    · rw [if_neg (by rw [hekey]; simp)]
      dsimp only
      apply map_nodeset_by_parameters_skip
      intro b hb
      have hbe : b ≠ e := fun hbeq => (List.nodup_cons.mp hnd).1 (hbeq ▸ hb)
      exact map_nodeset_scan_isSome e s2 m12 m21 (!ce) args b.origin
        (hothers b (List.mem_cons_of_mem _ hb) hbe)
    · have hae : a ≠ e := fun h => (List.nodup_cons.mp hnd).1 (h ▸ hmem)
      rw [if_pos (hothers a (List.mem_cons_self _ _) hae)]
      exact ih (List.nodup_cons.mp hnd).2 hmem
        fun b hb hbe => hothers b (List.mem_cons_of_mem _ hb) hbe

/-- After the `None`-fill, a key present on the diagonal reads back as
itself. -/
theorem map_non_matches_diag_lookup (S d : List String) (a : String) (ha : a ∈ d) :
    (map_non_matches S ((diag d).map fun p => (p.1, some p.2))).lookup a =
      some (some a) := by
  have hd : ((diag d).map fun p => (p.1, some p.2)).lookup a = some (some a) := by
    rw [lookup_map_value, diag_lookup, if_pos ha]
    rfl
  rw [map_non_matches_lookup_present (by rw [hd]; rfl)]
  exact hd

/-- C9: matching a label set against itself maps every label to itself
in the forward map.  Elements with nonempty origin self-match in the
exact-origin tier; the empty label (if present) self-matches in the
first relaxed tier; the remaining tiers and the `None`-fill change
nothing. -/
theorem map_nodeset_self_identity (S : List String) (hS : S.Nodup) :
    ∀ a ∈ S, ((map_nodeset S S).1).lookup a = some (some a) := by
  have horig : (S.map species_pattern).map SpeciesIdentifier.origin = S := by
    rw [List.map_map]
    exact (List.map_congr_left fun x _ => species_pattern_origin x).trans (List.map_id S)
  have hn : ((S.map species_pattern).map SpeciesIdentifier.origin).Nodup := by
    rw [horig]
    exact hS
  have hpnodup : (S.map species_pattern).Nodup := List.Nodup.of_map _ hn
  have htier0 : map_nodeset_by_parameters (S.map species_pattern)
      (S.map species_pattern) [] [] true [.origin] =
      (diag (((S.map species_pattern).filter fun x => x.origin != "").map
        SpeciesIdentifier.origin),
       diag (((S.map species_pattern).filter fun x => x.origin != "").map
        SpeciesIdentifier.origin)) :=
    tier0_self (S.map species_pattern) hn (S.map species_pattern) [] rfl
  have hDmem : ∀ x ∈ S.map species_pattern, (x.origin != "") = true →
      x.origin ∈ ((S.map species_pattern).filter fun x => x.origin != "").map
        SpeciesIdentifier.origin :=
    fun x hx hxo => List.mem_map.mpr ⟨x, List.mem_filter.mpr ⟨hx, hxo⟩, rfl⟩
  have hoS : ∀ x ∈ S.map species_pattern, x.origin ∈ S := by
    intro x hx
    rw [← horig]
    exact List.mem_map.mpr ⟨x, hx, rfl⟩
  by_cases hempty : "" ∈ S
  · -- the empty label is present: it self-matches in the stop = 4 tier
    have he : species_pattern "" ∈ S.map species_pattern :=
      List.mem_map.mpr ⟨"", hempty, rfl⟩
    have heo : (species_pattern "").origin = "" := species_pattern_origin ""
    have hDe : "" ∉ ((S.map species_pattern).filter fun x => x.origin != "").map
        SpeciesIdentifier.origin := by
      intro hmem
      rcases List.mem_map.mp hmem with ⟨x, hx, hxo⟩
      have hxne := (List.mem_filter.mp hx).2
      rw [hxo] at hxne
      simp at hxne
    have hothers : ∀ x ∈ S.map species_pattern, x ≠ species_pattern "" →
        (((diag (((S.map species_pattern).filter fun x => x.origin != "").map
          SpeciesIdentifier.origin)).lookup x.origin).isSome) = true := by
      intro x hx hxe
      have hxo : x.origin ≠ "" := by
        intro h
        exact hxe (List.inj_on_of_nodup_map hn hx he (by rw [h, heo]))
      rw [diag_lookup, if_pos (hDmem x hx (by simpa using hxo))]
      rfl
    have hekey : (diag (((S.map species_pattern).filter fun x => x.origin != "").map
        SpeciesIdentifier.origin)).lookup (species_pattern "").origin = none := by
      rw [heo, diag_lookup, if_neg hDe]
    have h4 := map_nodeset_by_parameters_single (S.map species_pattern)
      (S.map species_pattern)
      (diag (((S.map species_pattern).filter fun x => x.origin != "").map
        SpeciesIdentifier.origin))
      (diag (((S.map species_pattern).filter fun x => x.origin != "").map
        SpeciesIdentifier.origin))
      false (nonspecificParameters.take 4) (species_pattern "") hpnodup he hothers hekey
    have hscan : map_nodeset_scan (species_pattern "") (S.map species_pattern)
        (diag (((S.map species_pattern).filter fun x => x.origin != "").map
          SpeciesIdentifier.origin))
        (diag (((S.map species_pattern).filter fun x => x.origin != "").map
          SpeciesIdentifier.origin))
        (!false) (nonspecificParameters.take 4) =
        (diag ((((S.map species_pattern).filter fun x => x.origin != "").map
            SpeciesIdentifier.origin) ++ [""]),
         diag ((((S.map species_pattern).filter fun x => x.origin != "").map
            SpeciesIdentifier.origin) ++ [""])) := by
      rw [map_nodeset_scan_eq]
      have hfind : ((S.map species_pattern).filter fun b =>
          ((diag (((S.map species_pattern).filter fun x => x.origin != "").map
            SpeciesIdentifier.origin)).lookup b.origin).isNone).find?
          (fun b => parameterized_compare (species_pattern "") b (!false)
            (nonspecificParameters.take 4)) = some (species_pattern "") := by
        apply find_unique
        · exact List.mem_filter.mpr ⟨he, by rw [hekey]; rfl⟩
        · exact parameterized_compare_self (species_pattern "") _
        · intro b hb hpb
          have hbkey := (List.mem_filter.mp hb).2
          have hbD : b.origin ∉ ((S.map species_pattern).filter
              fun x => x.origin != "").map SpeciesIdentifier.origin := by
            intro hmem
            rw [diag_lookup, if_pos hmem] at hbkey
            simp at hbkey
          have hbo : b.origin = "" := by
            by_contra hne
            exact hbD (hDmem b (List.mem_filter.mp hb).1 (by simpa using hne))
          exact List.inj_on_of_nodup_map hn (List.mem_filter.mp hb).1 he
            (by rw [hbo, heo])
      rw [hfind]
      dsimp only
      rw [heo]
      simp [diag]
    have hall2 : ∀ x ∈ S.map species_pattern,
        (((diag ((((S.map species_pattern).filter fun x => x.origin != "").map
          SpeciesIdentifier.origin) ++ [""])).lookup x.origin).isSome) = true := by
      intro x hx
      by_cases hxo : (x.origin != "") = true
      · rw [diag_lookup, if_pos (List.mem_append_left _ (hDmem x hx hxo))]
        rfl
      · have hx0 : x.origin = "" := by simpa using hxo
        have hmem0 : "" ∈ ((((S.map species_pattern).filter fun x => x.origin != "").map
            SpeciesIdentifier.origin) ++ [""]) :=
          List.mem_append_right _ (List.mem_singleton.mpr rfl)
        rw [diag_lookup, hx0, if_pos hmem0]
        rfl
    have htiers : map_nodeset_tiers (S.map species_pattern) (S.map species_pattern) =
        (diag ((((S.map species_pattern).filter fun x => x.origin != "").map
            SpeciesIdentifier.origin) ++ [""]),
         diag ((((S.map species_pattern).filter fun x => x.origin != "").map
            SpeciesIdentifier.origin) ++ [""])) := by
      unfold map_nodeset_tiers
      simp only [List.foldl_cons, List.foldl_nil]
      rw [htier0]
      dsimp only
      rw [h4, hscan]
      dsimp only
      rw [map_nodeset_by_parameters_skip _ _ _ _ _ _ hall2]
      dsimp only
      rw [map_nodeset_by_parameters_skip _ _ _ _ _ _ hall2]
      dsimp only
      rw [map_nodeset_by_parameters_skip _ _ _ _ _ _ hall2]
    intro a haS
    unfold map_nodeset
    dsimp only
    rw [htiers]
    dsimp only
    apply map_non_matches_diag_lookup
    by_cases hao : a = ""
    · rw [hao]
      exact List.mem_append_right _ (List.mem_singleton.mpr rfl)
    · refine List.mem_append_left _ ?_
      have := hDmem (species_pattern a) (List.mem_map.mpr ⟨a, haS, rfl⟩)
        (by rw [species_pattern_origin]; simpa using hao)
      rw [species_pattern_origin] at this
      exact this
  · -- no empty label: the exact-origin tier already maps everything
    have hall : ∀ x ∈ S.map species_pattern,
        (((diag (((S.map species_pattern).filter fun x => x.origin != "").map
          SpeciesIdentifier.origin)).lookup x.origin).isSome) = true := by
      intro x hx
      have hxo : x.origin ≠ "" := fun h => hempty (h ▸ hoS x hx)
      rw [diag_lookup, if_pos (hDmem x hx (by simpa using hxo))]
      rfl
    have htiers : map_nodeset_tiers (S.map species_pattern) (S.map species_pattern) =
        (diag (((S.map species_pattern).filter fun x => x.origin != "").map
          SpeciesIdentifier.origin),
         diag (((S.map species_pattern).filter fun x => x.origin != "").map
          SpeciesIdentifier.origin)) := by
      unfold map_nodeset_tiers
      simp only [List.foldl_cons, List.foldl_nil]
      rw [htier0]
      dsimp only
      rw [map_nodeset_by_parameters_skip _ _ _ _ _ _ hall]
      dsimp only
      rw [map_nodeset_by_parameters_skip _ _ _ _ _ _ hall]
      dsimp only
      rw [map_nodeset_by_parameters_skip _ _ _ _ _ _ hall]
      dsimp only
      rw [map_nodeset_by_parameters_skip _ _ _ _ _ _ hall]
    intro a haS
    unfold map_nodeset
    dsimp only
    rw [htiers]
    dsimp only
    apply map_non_matches_diag_lookup
    have hao : a ≠ "" := fun h => hempty (h ▸ haS)
    have := hDmem (species_pattern a) (List.mem_map.mpr ⟨a, haS, rfl⟩)
      (by rw [species_pattern_origin]; simpa using hao)
    rw [species_pattern_origin] at this
    exact this

/-- C9 witness at a concrete label set. -/
theorem map_nodeset_self_identity_witness :
    (["Bug sp 1", "Apis mellifera"] : List String).Nodup ∧
      "Bug sp 1" ∈ (["Bug sp 1", "Apis mellifera"] : List String) ∧
      ((map_nodeset ["Bug sp 1", "Apis mellifera"]
        ["Bug sp 1", "Apis mellifera"]).1).lookup "Bug sp 1" =
        some (some "Bug sp 1") :=
  ⟨by decide, by decide,
    map_nodeset_self_identity ["Bug sp 1", "Apis mellifera"] (by decide)
      "Bug sp 1" (by decide)⟩

/-- `find?` only inspects predicate values. -/
theorem find_congr {α : Type} {p q : α → Bool} (h : ∀ x, p x = q x) (l : List α) :
    l.find? p = l.find? q := by
  induction l with
  | nil => rfl
  | cons x t ih =>
    by_cases hx : p x = true
    · rw [List.find?_cons_of_pos _ hx, List.find?_cons_of_pos _ (by rw [← h]; exact hx)]
    · rw [List.find?_cons_of_neg _ hx, List.find?_cons_of_neg _ (by rw [← h]; exact hx), ih]

/-- Decidable-equality Boolean equality tests are symmetric. -/
theorem beq_comm_dec {κ : Type} [DecidableEq κ] (x y : κ) : (x == y) = (y == x) := by
  by_cases h : x = y
  · subst h
    rfl
  · rw [beq_eq_false_iff_ne.mpr h, beq_eq_false_iff_ne.mpr fun hh => h hh.symm]

/-- The first match is the head of the filtered list. -/
theorem find_eq_head_filter {α : Type} (p : α → Bool) (l : List α) :
    l.find? p = (l.filter p).head? := by
  induction l with
  | nil => rfl
  | cons x t ih =>
    by_cases hx : p x = true
    · rw [List.find?_cons_of_pos _ hx, List.filter_cons_of_pos hx]
      rfl
    · rw [List.find?_cons_of_neg _ hx, List.filter_cons_of_neg hx, ih]

/-- Erasing commutes with filtering. -/
theorem filter_erase_comm {α : Type} [DecidableEq α] (p : α → Bool) (l : List α) (a : α) :
    (l.erase a).filter p = (l.filter p).erase a := by
  induction l with
  | nil => simp
  | cons x t ih =>
    by_cases hxa : x = a
    · subst hxa
      rw [List.erase_cons_head]
      by_cases hp : p x = true
      · rw [List.filter_cons_of_pos hp, List.erase_cons_head]
      · rw [List.filter_cons_of_neg hp, List.erase_of_not_mem]
        intro hmem
        exact hp (List.of_mem_filter hmem)
    · rw [List.erase_cons_tail (by simpa using hxa)]
      by_cases hp : p x = true
      · rw [List.filter_cons_of_pos hp, List.filter_cons_of_pos hp,
          List.erase_cons_tail (by simpa using hxa), ih]
      · rw [List.filter_cons_of_neg hp, List.filter_cons_of_neg hp, ih]

/-- An element with class index zero heads the list it belongs to. -/
theorem head_of_indexOf_zero {α : Type} [DecidableEq α] {l : List α} {b : α}
    (hb : b ∈ l) (h0 : l.indexOf b = 0) : l.head? = some b := by
  cases l with
  | nil => simp at hb
  | cons c t =>
    by_cases hbc : b = c
    · subst hbc
      rfl
    · rw [List.indexOf_cons_ne _ fun h => hbc h.symm] at h0
      exact absurd h0 (Nat.succ_ne_zero _)

theorem idxK_cons_self {κ : Type} [DecidableEq κ] (K : SpeciesIdentifier → κ)
    (a : SpeciesIdentifier) (xs : List SpeciesIdentifier) :
    idxK K a (a :: xs) = 0 := by
  unfold idxK
  rw [List.filter_cons_of_pos (by simp)]
  exact List.indexOf_cons_self a _

theorem idxK_cons_of_eq {κ : Type} [DecidableEq κ] {K : SpeciesIdentifier → κ}
    {a₀ x : SpeciesIdentifier} (xs : List SpeciesIdentifier)
    (h : K a₀ = K x) (hne : x ≠ a₀) :
    idxK K x (a₀ :: xs) = idxK K x xs + 1 := by
  unfold idxK
  rw [List.filter_cons_of_pos (by simp [h])]
  exact List.indexOf_cons_ne _ (Ne.symm hne)

theorem idxK_cons_of_ne {κ : Type} [DecidableEq κ] {K : SpeciesIdentifier → κ}
    {a₀ x : SpeciesIdentifier} (xs : List SpeciesIdentifier) (h : ¬K a₀ = K x) :
    idxK K x (a₀ :: xs) = idxK K x xs := by
  unfold idxK
  rw [List.filter_cons_of_neg (by simp [h])]

/-- The head of a key class has class index zero. -/
theorem idxK_head_zero {κ : Type} [DecidableEq κ] {K : SpeciesIdentifier → κ}
    {ys : List SpeciesIdentifier} {a₀ b₀ : SpeciesIdentifier}
    (hhead : (ys.filter fun y => K y == K a₀).head? = some b₀) (hKb₀ : K b₀ = K a₀) :
    idxK K b₀ ys = 0 := by
  unfold idxK
  have hfe : (fun y => K y == K b₀) = fun y => K y == K a₀ := by
    funext y
    rw [hKb₀]
  rw [hfe, ← List.cons_head?_tail hhead]
  exact List.indexOf_cons_self b₀ _

/-- Conversely, a class element with index zero is the class head. -/
theorem idxK_zero_head {κ : Type} [DecidableEq κ] {K : SpeciesIdentifier → κ}
    {ys : List SpeciesIdentifier} {a₀ b : SpeciesIdentifier}
    (hby : b ∈ ys) (hKb : K b = K a₀) (h0 : idxK K b ys = 0) :
    (ys.filter fun y => K y == K a₀).head? = some b := by
  unfold idxK at h0
  have hfe : (fun y => K y == K b) = fun y => K y == K a₀ := by
    funext y
    rw [hKb]
  rw [hfe] at h0
  exact head_of_indexOf_zero
    (List.mem_filter.mpr ⟨hby, by simp [hKb]⟩) h0

/-- Erasing the class head shifts the class indices of the other class
members down by one. -/
theorem idxK_erase_of_eq {κ : Type} [DecidableEq κ] {K : SpeciesIdentifier → κ}
    {ys : List SpeciesIdentifier} {a₀ b₀ b : SpeciesIdentifier}
    (hhead : (ys.filter fun y => K y == K a₀).head? = some b₀)
    (hKb : K b = K a₀) (hbne : b ≠ b₀) :
    idxK K b ys = idxK K b (ys.erase b₀) + 1 := by
  unfold idxK
  have hfe : (fun y => K y == K b) = fun y => K y == K a₀ := by
    funext y
    rw [hKb]
  rw [hfe, filter_erase_comm, ← List.cons_head?_tail hhead, List.erase_cons_head]
  exact List.indexOf_cons_ne _ (Ne.symm hbne)

/-- Erasing an element of another class leaves class indices alone. -/
theorem idxK_erase_of_ne {κ : Type} [DecidableEq κ] {K : SpeciesIdentifier → κ}
    {ys : List SpeciesIdentifier} {a₀ b₀ b : SpeciesIdentifier}
    (hKb : ¬K b = K a₀) (hKb₀ : K b₀ = K a₀) :
    idxK K b (ys.erase b₀) = idxK K b ys := by
  unfold idxK
  rw [filter_erase_comm, List.erase_of_not_mem]
  intro hmem
  have h1 : K b₀ = K b := eq_of_beq (List.mem_filter.mp hmem).2
  exact hKb (h1 ▸ hKb₀)

/-- Membership characterization of the greedy key-class matcher: `(a, b)`
is paired exactly when both sides are present, the key is eligible, the
keys agree, and `a` and `b` occupy the same position within their key
class on their respective sides. -/
theorem rowG_mem_iff {κ : Type} [DecidableEq κ] (K : SpeciesIdentifier → κ)
    (good : κ → Bool) :
    ∀ (xs ys : List SpeciesIdentifier), xs.Nodup → ys.Nodup →
      ∀ (a b : SpeciesIdentifier),
        ((a, b) ∈ rowG K good xs ys ↔
          (a ∈ xs ∧ b ∈ ys ∧ good (K a) = true ∧ K a = K b ∧
            idxK K a xs = idxK K b ys)) := by
  intro xs
  induction xs with
  | nil =>
    intro ys _ _ a b
    simp [rowG]
  | cons a₀ xs ih =>
    intro ys hx hy a b
    obtain ⟨ha₀, hx'⟩ := List.nodup_cons.mp hx
    unfold rowG
    by_cases hg : good (K a₀) = true
    · rw [if_pos hg]
      rcases hf : ys.find? (fun y => K y == K a₀) with _ | b₀
      · dsimp only
        have hnone := List.find?_eq_none.mp hf
        rw [ih ys hx' hy a b]
        constructor
        · rintro ⟨hax, hby, hga, hKab, hidx⟩
          have hKne : ¬K a₀ = K a := by
            intro he
            exact hnone b hby (by simp [← hKab, ← he])
          exact ⟨List.mem_cons_of_mem _ hax, hby, hga, hKab,
            by rw [idxK_cons_of_ne xs hKne]; exact hidx⟩
        · rintro ⟨hax, hby, hga, hKab, hidx⟩
          rcases List.mem_cons.mp hax with rfl | hax'
          · exact absurd (by simp [← hKab]) (hnone b hby)
          · have hKne : ¬K a₀ = K a := by
              intro he
              exact hnone b hby (by simp [← hKab, ← he])
            rw [idxK_cons_of_ne xs hKne] at hidx
            exact ⟨hax', hby, hga, hKab, hidx⟩
      · dsimp only
        have hb₀y : b₀ ∈ ys := List.mem_of_find?_eq_some hf
        have hKb₀ : K b₀ = K a₀ := by
          have h := List.find?_some hf
          exact eq_of_beq h
        have hhead : (ys.filter fun y => K y == K a₀).head? = some b₀ := by
          rw [← find_eq_head_filter]
          exact hf
        rw [List.mem_cons, ih (ys.erase b₀) hx' (List.Nodup.erase b₀ hy) a b]
        constructor
        · rintro (heq | ⟨hax, hbe, hga, hKab, hidx⟩)
          · injection heq with h1 h2
            subst h1
            subst h2
            refine ⟨List.mem_cons_self _ _, hb₀y, hg, hKb₀.symm, ?_⟩
            rw [idxK_cons_self, idxK_head_zero hhead hKb₀]
          · have hbne : b ≠ b₀ := ((List.Nodup.mem_erase_iff hy).mp hbe).1
            have hby : b ∈ ys := ((List.Nodup.mem_erase_iff hy).mp hbe).2
            refine ⟨List.mem_cons_of_mem _ hax, hby, hga, hKab, ?_⟩
            by_cases hKa : K a₀ = K a
            · have hane : a ≠ a₀ := fun h => ha₀ (h ▸ hax)
              rw [idxK_cons_of_eq xs hKa hane,
                idxK_erase_of_eq hhead (by rw [← hKab, ← hKa]) hbne, hidx]
            · have hKbne : ¬K b = K a₀ := fun h => hKa (by rw [← hKab] at h; exact h.symm)
              rw [idxK_cons_of_ne xs hKa, ← idxK_erase_of_ne hKbne hKb₀]
              exact hidx
        · rintro ⟨hax, hby, hga, hKab, hidx⟩
          rcases List.mem_cons.mp hax with rfl | hax'
          · left
            rw [idxK_cons_self] at hidx
            have hh := idxK_zero_head hby hKab.symm hidx.symm
            rw [hhead] at hh
            injection hh with h2
            rw [h2]
          · right
            by_cases hKa : K a₀ = K a
            · have hane : a ≠ a₀ := fun h => ha₀ (h ▸ hax')
              rw [idxK_cons_of_eq xs hKa hane] at hidx
              have hbne : b ≠ b₀ := by
                intro h
                subst h
                rw [idxK_head_zero hhead hKb₀] at hidx
                exact absurd hidx (Nat.succ_ne_zero _)
              have hbe : b ∈ ys.erase b₀ := (List.Nodup.mem_erase_iff hy).mpr ⟨hbne, hby⟩
              have hsh := idxK_erase_of_eq hhead (by rw [← hKab, ← hKa]) hbne
              rw [hsh] at hidx
              exact ⟨hax', hbe, hga, hKab, by omega⟩
            · have hKbne : ¬K b = K a₀ := fun h => hKa (by rw [← hKab] at h; exact h.symm)
              have hbne : b ≠ b₀ := fun h => hKbne (h ▸ hKb₀)
              have hbe : b ∈ ys.erase b₀ := (List.Nodup.mem_erase_iff hy).mpr ⟨hbne, hby⟩
              rw [idxK_cons_of_ne xs hKa] at hidx
              exact ⟨hax', hbe, hga, hKab, by rw [idxK_erase_of_ne hKbne hKb₀]; exact hidx⟩
    · rw [if_neg hg]
      rw [ih ys hx' hy a b]
      constructor
      · rintro ⟨hax, hby, hga, hKab, hidx⟩
        have hKne : ¬K a₀ = K a := fun he => hg (he ▸ hga)
        exact ⟨List.mem_cons_of_mem _ hax, hby, hga, hKab,
          by rw [idxK_cons_of_ne xs hKne]; exact hidx⟩
      · rintro ⟨hax, hby, hga, hKab, hidx⟩
        rcases List.mem_cons.mp hax with rfl | hax'
        · exact absurd hga hg
        · have hKne : ¬K a₀ = K a := fun he => hg (he ▸ hga)
          rw [idxK_cons_of_ne xs hKne] at hidx
          exact ⟨hax', hby, hga, hKab, hidx⟩

/-- The greedy matcher is symmetric in its two sides: `(a, b)` is paired
scanning `xs` against `ys` exactly when `(b, a)` is paired scanning `ys`
against `xs`. -/
theorem rowG_mem_swap {κ : Type} [DecidableEq κ] (K : SpeciesIdentifier → κ)
    (good : κ → Bool) (xs ys : List SpeciesIdentifier)
    (hx : xs.Nodup) (hy : ys.Nodup) (a b : SpeciesIdentifier) :
    (a, b) ∈ rowG K good xs ys ↔ (b, a) ∈ rowG K good ys xs := by
  rw [rowG_mem_iff K good xs ys hx hy, rowG_mem_iff K good ys xs hy hx]
  constructor
  · rintro ⟨h1, h2, h3, h4, h5⟩
    exact ⟨h2, h1, h4 ▸ h3, h4.symm, h5.symm⟩
  · rintro ⟨h1, h2, h3, h4, h5⟩
    exact ⟨h2, h1, h4 ▸ h3, h4.symm, h5.symm⟩

/-- The left components of the greedy matching form a sublist of the
left input. -/
theorem rowG_fst_sublist {κ : Type} [DecidableEq κ] (K : SpeciesIdentifier → κ)
    (good : κ → Bool) :
    ∀ (xs ys : List SpeciesIdentifier),
      ((rowG K good xs ys).map Prod.fst).Sublist xs := by
  intro xs
  induction xs with
  | nil =>
    intro ys
    simp [rowG]
  | cons a₀ xs ih =>
    intro ys
    unfold rowG
    by_cases hg : good (K a₀) = true
    · rw [if_pos hg]
      rcases hf : ys.find? (fun y => K y == K a₀) with _ | b₀
      · exact (ih ys).cons a₀
      · dsimp only
        rw [List.map_cons]
        exact (ih (ys.erase b₀)).cons₂ a₀
    · rw [if_neg hg]
      exact (ih ys).cons a₀

/-- The right components of the greedy matching are distinct elements of
the right input. -/
theorem rowG_snd_nodup_mem {κ : Type} [DecidableEq κ] (K : SpeciesIdentifier → κ)
    (good : κ → Bool) :
    ∀ (xs ys : List SpeciesIdentifier), ys.Nodup →
      ((rowG K good xs ys).map Prod.snd).Nodup ∧
        ∀ b ∈ (rowG K good xs ys).map Prod.snd, b ∈ ys := by
  intro xs
  induction xs with
  | nil =>
    intro ys _
    simp [rowG]
  | cons a₀ xs ih =>
    intro ys hy
    unfold rowG
    by_cases hg : good (K a₀) = true
    · rw [if_pos hg]
      rcases hf : ys.find? (fun y => K y == K a₀) with _ | b₀
      · exact ih ys hy
      · dsimp only
        rw [List.map_cons]
        have hrec := ih (ys.erase b₀) (List.Nodup.erase b₀ hy)
        refine ⟨List.nodup_cons.mpr ⟨?_, hrec.1⟩, ?_⟩
        · intro hmem
          exact ((List.Nodup.mem_erase_iff hy).mp (hrec.2 b₀ hmem)).1 rfl
        · intro b hb
          rcases List.mem_cons.mp hb with rfl | hb'
          · exact List.mem_of_find?_eq_some hf
          · exact ((List.Nodup.mem_erase_iff hy).mp (hrec.2 b hb')).2
    · rw [if_neg hg]
      exact ih ys hy

/-- Two association lists with distinct keys and the same entries have
the same lookups. -/
theorem lookup_eq_of_mem_iff {β : Type} {l1 l2 : List (String × β)}
    (h1 : (l1.map Prod.fst).Nodup) (h2 : (l2.map Prod.fst).Nodup)
    (h : ∀ p : String × β, p ∈ l1 ↔ p ∈ l2) (k : String) :
    l1.lookup k = l2.lookup k := by
  rcases hv : l1.lookup k with _ | v
  · rcases hw : l2.lookup k with _ | w
    · rfl
    · have hmem : (k, w) ∈ l1 := (h (k, w)).mpr (mem_of_lookup_eq_some hw)
      rw [lookup_eq_some_of_mem_nodup h1 hmem] at hv
      exact absurd hv (by simp)
  · have hmem : (k, v) ∈ l2 := (h (k, v)).mp (mem_of_lookup_eq_some hv)
    rw [lookup_eq_some_of_mem_nodup h2 hmem]

/-- The Boolean core of the per-tier compatibility rewrite. -/
theorem bool_tier (A E M T al : Bool) :
    ((A && (!E || al)) && (M && (al || T))) = ((A && M) && (al || (!E && T))) := by
  cases al <;> cases A <;> cases E <;> cases M <;> cases T <;> rfl

/-- Eligibility of the mapped key tuple, field by field. -/
theorem all_map_fval (a : SpeciesIdentifier) (t : List ParamField) :
    ((t.map (fval a)).all fun v => !(v == ExtraVal.str "")) =
      (t.all fun arg => !(fval a arg == ExtraVal.str "")) := by
  induction t with
  | nil => rfl
  | cons x s ih => rw [List.map_cons, List.all_cons, List.all_cons, ih]

/-- The field-by-field tier comparison equals the key comparison: the
compared field tuples agree and the left tuple is eligible. -/
theorem all_key_eq (a b : SpeciesIdentifier) (al : Bool) (args : List ParamField) :
    (args.all fun arg =>
        (fval a arg == fval b arg) && (!(fval a arg == ExtraVal.str "") || al)) =
      (decide (tierKey args b = tierKey args a) && tierGood al (tierKey args a)) := by
  induction args with
  | nil => simp [tierKey, tierGood]
  | cons x t ih =>
    rw [List.all_cons, ih]
    simp only [tierKey, tierGood, List.map_cons, List.all_cons]
    rw [all_map_fval]
    have hd : (decide (fval b x :: t.map (fval b) = fval a x :: t.map (fval a))) =
        (decide (fval b x = fval a x) && decide (t.map (fval b) = t.map (fval a))) := by
      rw [Bool.eq_iff_iff]
      simp
    have hc : (fval a x == fval b x) = decide (fval b x = fval a x) := by
      show decide (fval a x = fval b x) = decide (fval b x = fval a x)
      exact decide_eq_decide.mpr eq_comm
    rw [hd, hc]
    exact bool_tier (decide (fval b x = fval a x)) (fval a x == ExtraVal.str "")
      (decide (t.map (fval b) = t.map (fval a)))
      (t.all fun arg => !(fval a arg == ExtraVal.str "")) al

/-- For a nonempty parameter list, `parameterized_compare` is the
key-plus-eligibility comparison of the tier key tuples. -/
theorem parameterized_compare_key (a b : SpeciesIdentifier) (al : Bool)
    (args : List ParamField) (h : args ≠ []) :
    parameterized_compare a b al args =
      (decide (tierKey args b = tierKey args a) && tierGood al (tierKey args a)) := by
  unfold parameterized_compare
  rw [if_neg (by simpa using h)]
  exact all_key_eq a b al args

/-- Lookup in a singleton association list. -/
theorem lookup_singleton {β : Type} (k : String) (v : β) (q : String) :
    ([(k, v)] : List (String × β)).lookup q =
      if (q == k) = true then some v else none := by
  by_cases h : (q == k) = true
  · rw [if_pos h]
    simp only [List.lookup_cons]
    rw [h]
  · rw [if_neg h]
    rw [Bool.not_eq_true] at h
    simp only [List.lookup_cons]
    rw [h]
    rfl

/-- Appending a pair under a fresh key does not change which elements of
a list are still unmapped. -/
theorem filter_avail_fresh (rest : List SpeciesIdentifier) (m : List (String × String))
    (k v : String) (hk : k ∉ rest.map SpeciesIdentifier.origin) :
    (rest.filter fun x => ((m ++ [(k, v)]).lookup x.origin).isNone) =
      (rest.filter fun x => (m.lookup x.origin).isNone) := by
  apply List.filter_congr
  intro x hx
  rw [lookup_append]
  by_cases hm : ((m.lookup x.origin).isSome) = true
  · rw [if_pos hm]
  · rw [if_neg hm, lookup_singleton]
    have hne : (x.origin == k) = false := by
      have hxk : x.origin ≠ k := fun h => hk (h ▸ List.mem_map.mpr ⟨x, hx, rfl⟩)
      simpa using hxk
    rw [if_neg (by simp [hne])]
    have hmn : m.lookup x.origin = none := by
      rcases h : m.lookup x.origin with _ | w
      · rfl
      · rw [h] at hm
        simp at hm
    rw [hmn]

/-- Recording a pair for an available element removes exactly that
element from the availability filter (the other origins are unaffected
because origins are distinct). -/
theorem filter_avail_erase (s2 : List SpeciesIdentifier) (m : List (String × String))
    (b : SpeciesIdentifier) (v : String)
    (hs2 : (s2.map SpeciesIdentifier.origin).Nodup)
    (hb : b ∈ s2.filter fun x => (m.lookup x.origin).isNone) :
    (s2.filter fun x => ((m ++ [(b.origin, v)]).lookup x.origin).isNone) =
      (s2.filter fun x => (m.lookup x.origin).isNone).erase b := by
  induction s2 with
  | nil => simp at hb
  | cons x t ih =>
    rw [List.map_cons, List.nodup_cons] at hs2
    by_cases hxm : ((m.lookup x.origin).isNone) = true
    · by_cases hxb : x = b
      · subst hxb
        have hmn : m.lookup x.origin = none := by
          rcases h : m.lookup x.origin with _ | w
          · rfl
          · rw [h] at hxm
            simp at hxm
        have hla : ((m ++ [(x.origin, v)]).lookup x.origin) = some v := by
          rw [lookup_append, if_neg (by rw [hmn]; simp), lookup_singleton,
            if_pos (by simp)]
        rw [List.filter_cons, if_neg (by rw [hla]; simp),
          List.filter_cons, if_pos (by simp [hxm]), List.erase_cons_head]
        exact filter_avail_fresh t m x.origin v hs2.1
      · have hbt : b ∈ t.filter fun y => (m.lookup y.origin).isNone := by
          rw [List.filter_cons, if_pos (by simp [hxm])] at hb
          rcases List.mem_cons.mp hb with rfl | h
          · exact absurd rfl hxb
          · exact h
        have hxo : x.origin ≠ b.origin := by
          intro h
          exact hs2.1 (h ▸ List.mem_map.mpr ⟨b, (List.mem_filter.mp hbt).1, rfl⟩)
        have hla : ((m ++ [(b.origin, v)]).lookup x.origin).isNone = true := by
          rw [lookup_append]
          by_cases hms : ((m.lookup x.origin).isSome) = true
          · rcases h : m.lookup x.origin with _ | w
            · rw [h] at hms
              simp at hms
            · rw [h] at hxm
              simp at hxm
          · rw [if_neg hms, lookup_singleton, if_neg (by simp [hxo])]
            rfl
        rw [List.filter_cons, if_pos (by simpa using hla),
          List.filter_cons, if_pos (by simp [hxm]),
          List.erase_cons_tail (by simp [hxb]), ih hs2.2 hbt]
    · have hxs : ((m.lookup x.origin).isSome) = true := by
        rcases h : m.lookup x.origin with _ | w
        · rw [h] at hxm
          simp at hxm
        · rfl
      have hla : ((m ++ [(b.origin, v)]).lookup x.origin).isNone = false := by
        rw [lookup_append, if_pos hxs]
        rcases h : m.lookup x.origin with _ | w
        · rw [h] at hxs
          simp at hxs
        · rfl
      have hbt : b ∈ t.filter fun y => (m.lookup y.origin).isNone := by
        rw [List.filter_cons, if_neg (by simp [hxm])] at hb
        exact hb
      rw [List.filter_cons, if_neg (by simp [hla]),
        List.filter_cons, if_neg (by simp [hxm])]
      exact ih hs2.2 hbt

/-- The cons unfolding of the greedy matcher with the tier key, phrased
through `parameterized_compare` as the search predicate. -/
theorem rowG_cons_pc (args : List ParamField) (hargs : args ≠ []) (al : Bool)
    (a : SpeciesIdentifier) (xs ys : List SpeciesIdentifier) :
    rowG (tierKey args) (tierGood al) (a :: xs) ys =
      if tierGood al (tierKey args a) = true then
        match ys.find? (fun b => parameterized_compare a b al args) with
        | some b => (a, b) :: rowG (tierKey args) (tierGood al) xs (ys.erase b)
        | none => rowG (tierKey args) (tierGood al) xs ys
      else rowG (tierKey args) (tierGood al) xs ys := by
  by_cases hg : tierGood al (tierKey args a) = true
  · rw [if_pos hg]
    have hpt : ∀ x : SpeciesIdentifier,
        (parameterized_compare a x al args) =
          @BEq.beq (List ExtraVal) instBEqOfDecidableEq
            (tierKey args x) (tierKey args a) := by
      intro x
      rw [parameterized_compare_key a x al args hargs, hg, Bool.and_true]
      rfl
    rw [find_congr hpt ys]
    conv_lhs => rw [rowG.eq_def]
    dsimp only
    rw [if_pos hg]
  · rw [if_neg hg]
    conv_lhs => rw [rowG.eq_def]
    dsimp only
    rw [if_neg hg]

/-- One matching tier is exactly a greedy key-class matching on the
still-unmapped elements of both sides, appended to the incoming maps:
the mutated-map recursion of `map_nodeset_by_parameters` reduces to
`rowG` over the two availability filters. -/
theorem tier_eq_rowG (args : List ParamField) (hargs : args ≠ []) (ce : Bool) :
    ∀ (s1 s2 : List SpeciesIdentifier) (m12 m21 : List (String × String)),
      (s1.map SpeciesIdentifier.origin).Nodup →
      (s2.map SpeciesIdentifier.origin).Nodup →
      map_nodeset_by_parameters s1 s2 m12 m21 ce args =
        (m12 ++ (rowG (tierKey args) (tierGood (!ce))
            (s1.filter fun a => (m12.lookup a.origin).isNone)
            (s2.filter fun b => (m21.lookup b.origin).isNone)).map
          (fun p => (p.1.origin, p.2.origin)),
         m21 ++ (rowG (tierKey args) (tierGood (!ce))
            (s1.filter fun a => (m12.lookup a.origin).isNone)
            (s2.filter fun b => (m21.lookup b.origin).isNone)).map
          (fun p => (p.2.origin, p.1.origin))) := by
  intro s1
  induction s1 with
  | nil =>
    intro s2 m12 m21 _ _
    simp [map_nodeset_by_parameters, rowG]
  | cons a rest ih =>
    intro s2 m12 m21 hs1 hs2
    rw [List.map_cons, List.nodup_cons] at hs1
    unfold map_nodeset_by_parameters
    by_cases hk : ((m12.lookup a.origin).isSome) = true
    · rw [if_pos hk]
      rw [ih s2 m12 m21 hs1.2 hs2]
      have hpa : ¬(((m12.lookup a.origin).isNone) = true) := by
        rcases h : m12.lookup a.origin with _ | w
        · rw [h] at hk
          simp at hk
        · simp
      rw [List.filter_cons, if_neg hpa]
    · have hkn : m12.lookup a.origin = none := by
        rcases h : m12.lookup a.origin with _ | w
        · rfl
        · rw [h] at hk
          simp at hk
      rw [if_neg hk]
      rcases hf : ((s2.filter fun b => (m21.lookup b.origin).isNone).find?
          (fun b => parameterized_compare a b (!ce) args)) with _ | b
      · have hscan : map_nodeset_scan a s2 m12 m21 (!ce) args = (m12, m21) := by
          rw [map_nodeset_scan_eq, hf]
        rw [hscan]
        dsimp only
        rw [ih s2 m12 m21 hs1.2 hs2]
        rw [List.filter_cons, if_pos (by simp [hkn])]
        rw [rowG_cons_pc args hargs (!ce) a _ _, hf]
        dsimp only
        rw [ite_self]
      · have hbf : b ∈ s2.filter fun x => (m21.lookup x.origin).isNone :=
          List.mem_of_find?_eq_some hf
        have hg : tierGood (!ce) (tierKey args a) = true := by
          have hpc := List.find?_some hf
          rw [parameterized_compare_key a b (!ce) args hargs] at hpc
          simp only [Bool.and_eq_true] at hpc
          exact hpc.2
        have hscan : map_nodeset_scan a s2 m12 m21 (!ce) args =
            (m12 ++ [(a.origin, b.origin)], m21 ++ [(b.origin, a.origin)]) := by
          rw [map_nodeset_scan_eq, hf]
        rw [hscan]
        dsimp only
        rw [ih s2 (m12 ++ [(a.origin, b.origin)]) (m21 ++ [(b.origin, a.origin)])
          hs1.2 hs2]
        rw [filter_avail_fresh rest m12 a.origin b.origin hs1.1]
        rw [filter_avail_erase s2 m21 b a.origin hs2 hbf]
        rw [List.filter_cons, if_pos (by simp [hkn])]
        rw [rowG_cons_pc args hargs (!ce) a _ _, if_pos hg, hf]
        dsimp only
        rw [List.map_cons, List.map_cons, List.append_assoc, List.append_assoc]
        rfl

/-- The origin-pair list of a greedy matching run one way has the same
lookups as the reversed origin-pair list of the run the other way. -/
theorem rowG_maps_lookup_eq {κ : Type} [DecidableEq κ] (K : SpeciesIdentifier → κ)
    (good : κ → Bool) (f1 f2 : List SpeciesIdentifier)
    (h1 : (f1.map SpeciesIdentifier.origin).Nodup)
    (h2 : (f2.map SpeciesIdentifier.origin).Nodup) (k : String) :
    ((rowG K good f1 f2).map fun p => (p.1.origin, p.2.origin)).lookup k =
      ((rowG K good f2 f1).map fun p => (p.2.origin, p.1.origin)).lookup k := by
  apply lookup_eq_of_mem_iff
  · have he : (((rowG K good f1 f2).map fun p => (p.1.origin, p.2.origin)).map
        Prod.fst) = ((rowG K good f1 f2).map Prod.fst).map SpeciesIdentifier.origin := by
      rw [List.map_map, List.map_map]
      rfl
    rw [he]
    exact List.Nodup.sublist (List.Sublist.map _ (rowG_fst_sublist K good f1 f2)) h1
  · have he : (((rowG K good f2 f1).map fun p => (p.2.origin, p.1.origin)).map
        Prod.fst) = ((rowG K good f2 f1).map Prod.snd).map SpeciesIdentifier.origin := by
      rw [List.map_map, List.map_map]
      rfl
    rw [he]
    have hsnd := rowG_snd_nodup_mem K good f2 f1 (List.Nodup.of_map _ h1)
    exact List.Nodup.map_on
      (fun x hx y hy hxy =>
        List.inj_on_of_nodup_map h1 (hsnd.2 x hx) (hsnd.2 y hy) hxy)
      hsnd.1
  · intro p
    obtain ⟨k', v⟩ := p
    have hnd1 : f1.Nodup := List.Nodup.of_map _ h1
    have hnd2 : f2.Nodup := List.Nodup.of_map _ h2
    constructor
    · intro hp
      rcases List.mem_map.mp hp with ⟨⟨x, y⟩, hxy, heq⟩
      refine List.mem_map.mpr
        ⟨(y, x), (rowG_mem_swap K good f1 f2 hnd1 hnd2 x y).mp hxy, ?_⟩
      dsimp only at heq ⊢
      injection heq with e1 e2
      rw [e1, e2]
    · intro hp
      rcases List.mem_map.mp hp with ⟨⟨y, x⟩, hxy, heq⟩
      refine List.mem_map.mpr
        ⟨(x, y), (rowG_mem_swap K good f1 f2 hnd1 hnd2 x y).mpr hxy, ?_⟩
      dsimp only at heq ⊢
      injection heq with e1 e2
      rw [e1, e2]

/-- One matching tier is symmetric in its two sides at the level of map
lookups: if the incoming maps of a run and of the side-swapped run
mirror each other pointwise, so do the outgoing maps. -/
theorem tier_symm (args : List ParamField) (hargs : args ≠ []) (ce : Bool)
    (s1 s2 : List SpeciesIdentifier)
    (hs1 : (s1.map SpeciesIdentifier.origin).Nodup)
    (hs2 : (s2.map SpeciesIdentifier.origin).Nodup)
    (m a m' a' : List (String × String))
    (hma : ∀ k, m.lookup k = a'.lookup k)
    (ham : ∀ k, a.lookup k = m'.lookup k) :
    (∀ k, (map_nodeset_by_parameters s1 s2 m a ce args).1.lookup k =
        (map_nodeset_by_parameters s2 s1 m' a' ce args).2.lookup k) ∧
    (∀ k, (map_nodeset_by_parameters s1 s2 m a ce args).2.lookup k =
        (map_nodeset_by_parameters s2 s1 m' a' ce args).1.lookup k) := by
  rw [tier_eq_rowG args hargs ce s1 s2 m a hs1 hs2,
    tier_eq_rowG args hargs ce s2 s1 m' a' hs2 hs1]
  dsimp only
  have hg1 : (s1.filter fun x => (a'.lookup x.origin).isNone) =
      (s1.filter fun x => (m.lookup x.origin).isNone) := by
    apply List.filter_congr
    intro x _
    rw [hma x.origin]
  have hg2 : (s2.filter fun x => (m'.lookup x.origin).isNone) =
      (s2.filter fun x => (a.lookup x.origin).isNone) := by
    apply List.filter_congr
    intro x _
    rw [ham x.origin]
  rw [hg1, hg2]
  have hf1 : ((s1.filter fun x => (m.lookup x.origin).isNone).map
      SpeciesIdentifier.origin).Nodup :=
    List.Nodup.sublist (List.Sublist.map _ (List.filter_sublist _)) hs1
  have hf2 : ((s2.filter fun x => (a.lookup x.origin).isNone).map
      SpeciesIdentifier.origin).Nodup :=
    List.Nodup.sublist (List.Sublist.map _ (List.filter_sublist _)) hs2
  constructor
  · intro k
    rw [lookup_append, lookup_append, hma k]
    by_cases h : ((a'.lookup k).isSome) = true
    · rw [if_pos h, if_pos h]
    · rw [if_neg h, if_neg h]
      exact rowG_maps_lookup_eq (tierKey args) (tierGood (!ce)) _ _ hf1 hf2 k
  · intro k
    rw [lookup_append, lookup_append, ham k]
    by_cases h : ((m'.lookup k).isSome) = true
    · rw [if_pos h, if_pos h]
    · rw [if_neg h, if_neg h]
      exact (rowG_maps_lookup_eq (tierKey args) (tierGood (!ce)) _ _ hf2 hf1 k).symm

/-- Parsing keeps the raw labels as origins, list-wise. -/
theorem map_pattern_origin (S : List String) :
    ((S.map species_pattern).map SpeciesIdentifier.origin) = S := by
  rw [List.map_map]
  exact (List.map_congr_left fun x _ => species_pattern_origin x).trans (List.map_id S)

/-- The full five-tier pipeline is symmetric in its two label sets, at
the level of map lookups: the forward map of one run mirrors the
reverse map of the side-swapped run. -/
theorem map_nodeset_tiers_symm (p1 p2 : List SpeciesIdentifier)
    (h1 : (p1.map SpeciesIdentifier.origin).Nodup)
    (h2 : (p2.map SpeciesIdentifier.origin).Nodup) :
    (∀ k, (map_nodeset_tiers p1 p2).1.lookup k =
        (map_nodeset_tiers p2 p1).2.lookup k) ∧
    (∀ k, (map_nodeset_tiers p1 p2).2.lookup k =
        (map_nodeset_tiers p2 p1).1.lookup k) := by
  unfold map_nodeset_tiers
  simp only [List.foldl_cons, List.foldl_nil]
  have t0 := tier_symm [.origin] (by simp) true p1 p2 h1 h2 [] [] [] []
    (fun _ => rfl) (fun _ => rfl)
  have t1 := tier_symm (nonspecificParameters.take 4)
    (by simp [nonspecificParameters]) false p1 p2 h1 h2 _ _ _ _ t0.1 t0.2
  have t2 := tier_symm (nonspecificParameters.take 3)
    (by simp [nonspecificParameters]) false p1 p2 h1 h2 _ _ _ _ t1.1 t1.2
  have t3 := tier_symm (nonspecificParameters.take 2)
    (by simp [nonspecificParameters]) false p1 p2 h1 h2 _ _ _ _ t2.1 t2.2
  exact tier_symm [.species] (by simp) true p1 p2 h1 h2 _ _ _ _ t3.1 t3.2

/-- Full characterization of lookups after `None`-filling: present keys
keep their value, fresh keys of `key_set` read `None`, others are
absent. -/
theorem map_non_matches_lookup_char (ks : List String) :
    ∀ (m : List (String × Option String)) (k : String),
      (map_non_matches ks m).lookup k =
        if ((m.lookup k).isSome) = true then m.lookup k
        else if k ∈ ks then some none else none := by
  induction ks with
  | nil =>
    intro m k
    have hmn : map_non_matches [] m = m := rfl
    rw [hmn]
    by_cases h : ((m.lookup k).isSome) = true
    · rw [if_pos h]
    · rw [if_neg h, if_neg (List.not_mem_nil k)]
      rcases hh : m.lookup k with _ | w
      · rfl
      · rw [hh] at h
        simp at h
  | cons k0 t ih =>
    intro m k
    unfold map_non_matches
    by_cases h0 : ((m.lookup k0).isSome) = true
    · rw [if_pos h0, ih m k]
      by_cases hk : ((m.lookup k).isSome) = true
      · rw [if_pos hk, if_pos hk]
      · rw [if_neg hk, if_neg hk]
        by_cases hkt : k ∈ t
        · rw [if_pos hkt, if_pos (List.mem_cons_of_mem _ hkt)]
        · rw [if_neg hkt]
          by_cases hkk : k = k0
          · subst hkk
            exact absurd h0 hk
          · rw [if_neg (by simp [hkk, hkt])]
    · rw [if_neg h0]
      by_cases hk : ((m.lookup k).isSome) = true
      · have hl : (m ++ [(k0, none)]).lookup k = m.lookup k := by
          rw [lookup_append, if_pos hk]
        rw [ih (m ++ [(k0, none)]) k, hl, if_pos hk, if_pos hk]
      · by_cases hkk : k = k0
        · subst hkk
          have hl : (m ++ [(k, none)]).lookup k = some none := by
            rw [lookup_append, if_neg hk, lookup_singleton, if_pos (by simp)]
          rw [ih (m ++ [(k, none)]) k, hl, if_pos (by simp), if_neg hk,
            if_pos (List.mem_cons_self k t)]
        · have hl : (m ++ [(k0, none)]).lookup k = none := by
            rw [lookup_append, if_neg hk, lookup_singleton,
              if_neg (by simp [hkk])]
          rw [ih (m ++ [(k0, none)]) k, hl, if_neg (by simp), if_neg hk]
          by_cases hkt : k ∈ t
          · rw [if_pos hkt, if_pos (List.mem_cons_of_mem _ hkt)]
          · rw [if_neg hkt, if_neg (by simp [hkk, hkt])]

/-- Read through `dictFun`, a `None`-filled mapping is the partial
lookup of the raw pair list it was built from. -/
theorem dictFun_map_non_matches (ks : List String) (m : List (String × String))
    (k : String) :
    dictFun (map_non_matches ks (m.map fun p => (p.1, some p.2))) k = m.lookup k := by
  unfold dictFun
  rw [map_non_matches_lookup_char, lookup_map_value]
  rcases h : m.lookup k with _ | v
  · rw [if_neg (by simp)]
    by_cases hk : k ∈ ks
    · rw [if_pos hk]
      rfl
    · rw [if_neg hk]
      rfl
  · rw [if_pos (by simp)]
    rfl

/-- `map_nodeset` is symmetric in its two label sets: the `None`-filled
forward map of one run equals (as a partial function) the reverse map of
the side-swapped run, and the two unmapped lists swap places. -/
theorem map_nodeset_symm (S T : List String) (hS : S.Nodup) (hT : T.Nodup) :
    (∀ k, dictFun (map_nodeset S T).1 k = dictFun (map_nodeset T S).2.1 k) ∧
    (∀ k, dictFun (map_nodeset S T).2.1 k = dictFun (map_nodeset T S).1 k) ∧
    (map_nodeset S T).2.2.1 = (map_nodeset T S).2.2.2 ∧
    (map_nodeset S T).2.2.2 = (map_nodeset T S).2.2.1 := by
  have h1 : ((S.map species_pattern).map SpeciesIdentifier.origin).Nodup := by
    rw [map_pattern_origin]
    exact hS
  have h2 : ((T.map species_pattern).map SpeciesIdentifier.origin).Nodup := by
    rw [map_pattern_origin]
    exact hT
  have hts := map_nodeset_tiers_symm (S.map species_pattern) (T.map species_pattern) h1 h2
  unfold map_nodeset
  dsimp only
  refine ⟨?_, ?_, ?_, ?_⟩
  · intro k
    rw [dictFun_map_non_matches, dictFun_map_non_matches]
    exact hts.1 k
  · intro k
    rw [dictFun_map_non_matches, dictFun_map_non_matches]
    exact hts.2 k
  · apply List.filter_congr
    intro x _
    rw [hts.1 x]
  · apply List.filter_congr
    intro x _
    rw [hts.2 x]

/-- C5: the duplicate classifier is symmetric: for any two networks
(with their pandas-unique row and column labels) and any threshold
fraction, `compare_networks(A, B)` returns the same boolean as
`compare_networks(B, A)`.  The size gates are symmetric arithmetic, the
five matching tiers pair the same label pairs in either scan order, the
unmapped label sets swap places, and the interaction passes swap
roles. -/
theorem compare_networks_symmetric (A B : Network) (ct : ℚ)
    (hra : A.rows.Nodup) (hca : A.cols.Nodup)
    (hrb : B.rows.Nodup) (hcb : B.cols.Nodup) :
    compare_networks A B ct = compare_networks B A ct := by
  rw [Bool.eq_iff_iff]
  unfold compare_networks
  dsimp only
  rw [ite_cascade5, ite_cascade5]
  have hrows := map_nodeset_symm A.rows B.rows hra hrb
  have hcols := map_nodeset_symm A.cols B.cols hca hcb
  have hfr1 : dictFun (map_nodeset A.rows B.rows).1 =
      dictFun (map_nodeset B.rows A.rows).2.1 := funext hrows.1
  have hfr2 : dictFun (map_nodeset A.rows B.rows).2.1 =
      dictFun (map_nodeset B.rows A.rows).1 := funext hrows.2.1
  have hfc1 : dictFun (map_nodeset A.cols B.cols).1 =
      dictFun (map_nodeset B.cols A.cols).2.1 := funext hcols.1
  have hfc2 : dictFun (map_nodeset A.cols B.cols).2.1 =
      dictFun (map_nodeset B.cols A.cols).1 := funext hcols.2.1
  have hcnt : compare_network_interactions B A
      (dictFun (map_nodeset B.rows A.rows).1) (dictFun (map_nodeset B.rows A.rows).2.1)
      (dictFun (map_nodeset B.cols A.cols).1) (dictFun (map_nodeset B.cols A.cols).2.1)
      false false =
      ((compare_network_interactions A B
          (dictFun (map_nodeset A.rows B.rows).1) (dictFun (map_nodeset A.rows B.rows).2.1)
          (dictFun (map_nodeset A.cols B.cols).1) (dictFun (map_nodeset A.cols B.cols).2.1)
          false false).2.1,
        (compare_network_interactions A B
          (dictFun (map_nodeset A.rows B.rows).1) (dictFun (map_nodeset A.rows B.rows).2.1)
          (dictFun (map_nodeset A.cols B.cols).1) (dictFun (map_nodeset A.cols B.cols).2.1)
          false false).1,
        (compare_network_interactions A B
          (dictFun (map_nodeset A.rows B.rows).1) (dictFun (map_nodeset A.rows B.rows).2.1)
          (dictFun (map_nodeset A.cols B.cols).1) (dictFun (map_nodeset A.cols B.cols).2.1)
          false false).2.2.2,
        (compare_network_interactions A B
          (dictFun (map_nodeset A.rows B.rows).1) (dictFun (map_nodeset A.rows B.rows).2.1)
          (dictFun (map_nodeset A.cols B.cols).1) (dictFun (map_nodeset A.cols B.cols).2.1)
          false false).2.2.1) := by
    rw [← hfr1, ← hfr2, ← hfc1, ← hfc2]
    unfold compare_network_interactions
    dsimp only
  rw [hcnt]
  have hdedup : ∀ l1 l2 : List String,
      (l1 ++ l2).dedup.length = (l2 ++ l1).dedup.length := by
    intro l1 l2
    rw [dedup_length_eq_unionCard, dedup_length_eq_unionCard]
    unfold unionCard
    rw [Finset.union_comm]
  refine and_congr (not_congr ?_) (and_congr (not_congr ?_) (and_congr (not_congr ?_)
    (and_congr (not_congr ?_) (not_congr ?_))))
  · rw [abs_sub_comm, add_comm ((A.rows.length : ℚ)) ((B.rows.length : ℚ))]
  · rw [abs_sub_comm, add_comm ((A.cols.length : ℚ)) ((B.cols.length : ℚ))]
  · rw [hrows.2.2.1, hrows.2.2.2, hdedup,
      add_comm ((A.rows.length : ℚ)) ((B.rows.length : ℚ))]
  · rw [hcols.2.2.1, hcols.2.2.2, hdedup,
      add_comm ((A.cols.length : ℚ)) ((B.cols.length : ℚ))]
  · dsimp only
    rw [add_comm ((compare_network_interactions A B
        (dictFun (map_nodeset A.rows B.rows).1) (dictFun (map_nodeset A.rows B.rows).2.1)
        (dictFun (map_nodeset A.cols B.cols).1) (dictFun (map_nodeset A.cols B.cols).2.1)
        false false).1 : ℚ)]
    rw [add_comm ((compare_network_interactions A B
        (dictFun (map_nodeset A.rows B.rows).1) (dictFun (map_nodeset A.rows B.rows).2.1)
        (dictFun (map_nodeset A.cols B.cols).1) (dictFun (map_nodeset A.cols B.cols).2.1)
        false false).2.2.1 : ℚ)]

/-- C5 (witness): the symmetry theorem applied at two concrete networks
with duplicate-free labels. -/
theorem compare_networks_symmetric_witness :
    netEx2.rows.Nodup ∧ netEx2.cols.Nodup ∧ netEx3.rows.Nodup ∧ netEx3.cols.Nodup ∧
      compare_networks netEx2 netEx3 (1/2) = compare_networks netEx3 netEx2 (1/2) :=
  ⟨by decide, by decide, by decide, by decide,
    compare_networks_symmetric netEx2 netEx3 (1/2)
      (by decide) (by decide) (by decide) (by decide)⟩

/-- C7 (counterexample): the parser does not raise on the empty label;
`''.split(' ') == ['']` yields one empty token, the marker test is
falsy, and the normal branch silently returns the all-empty
identifier. -/
theorem species_pattern_empty_label_counterexample :
    species_pattern "" = ⟨"", "", "", "", ExtraVal.str "", ""⟩ := by decide

/-- C7 (amended): `species_pattern` is total — it never raises for any
label (well-formed or not), always returning an identifier that carries
the label as its `origin`; on the zero-token (empty) label the result is
the all-empty identifier rather than an error. -/
theorem species_pattern_total :
    (∀ s : String, (species_pattern s).origin = s) ∧
      species_pattern "" = ⟨"", "", "", "", ExtraVal.str "", ""⟩ := by
  refine ⟨fun s => ?_, by decide⟩
  unfold species_pattern
  dsimp only
  split
  · rfl
  · split <;> rfl

/-- C6 (counterexample): a degenerate pair (zero rows, zero columns)
produces an ordinary verdict — in fact `true` — and no error of any
kind; `compare_networks` has no degeneracy check. -/
theorem degenerate_network_verdict_counterexample :
    compare_networks ⟨[], [], fun _ _ => 0⟩ ⟨[], [], fun _ _ => 0⟩ (5 / 100) = true := by
  decide

/-- C6 (amended): the classifier never raises on a zero-row network; the
comparison runs through the ordinary gates, and against a network with
at least one row (for any threshold fraction below 2) the row-size gate
fails, so the verdict is the ordinary boolean `false`. -/
theorem degenerate_network_row_gate (net1 net2 : Network) (ct : ℚ)
    (h1 : net1.rows.length = 0) (h2 : 0 < net2.rows.length) (hct : ct < 2) :
    compare_networks net1 net2 ct = false := by
  have hr2 : (0 : ℚ) < (net2.rows.length : ℚ) := by exact_mod_cast h2
  have hC : |((net1.rows.length : ℚ)) - (net2.rows.length : ℚ)| >
      (((net1.rows.length : ℚ)) + ((net2.rows.length : ℚ))) / 2 * ct := by
    rw [h1]
    push_cast
    rw [zero_sub, abs_neg, abs_of_pos hr2]
    nlinarith
  unfold compare_networks
  dsimp only
  rw [if_pos hC]

/-- C6 (amended) witness at a concrete degenerate input. -/
theorem degenerate_network_row_gate_witness :
    (⟨[], ["c"], fun _ _ => 0⟩ : Network).rows.length = 0 ∧
      0 < (⟨["a"], ["c"], fun _ _ => 1⟩ : Network).rows.length ∧
      (5 : ℚ) / 100 < 2 ∧
      compare_networks ⟨[], ["c"], fun _ _ => 0⟩ ⟨["a"], ["c"], fun _ _ => 1⟩
        (5 / 100) = false :=
  ⟨rfl, by decide, by decide,
    degenerate_network_row_gate _ _ _ rfl (by decide) (by decide)⟩

/-- C8 (counterexample): in the corpus `[A(2 rows), B(3), C(4)]` at
threshold `1/2`, `A` and `B` are classified duplicates and `A` has
fewer rows, yet the resolution pass excludes **both** `A` and `B`:
after `A` loses to `B`, `B` itself loses its later comparison against
the larger `C`, so "adds A, not B, to the excluded set" fails. -/
theorem resolve_duplicates_chain_counterexample :
    compare_networks netEx2 netEx3 (1 / 2) = true ∧
      netEx2.rows.length < netEx3.rows.length ∧
      compare_all_networks [("A", netEx2), ("B", netEx3), ("C", netEx4)] (1 / 2)
        (fun _ _ => true) [] = ["A", "B"] := by decide

/-- C8 (amended): whenever the resolution pass actually compares the
duplicate pair `(A, B)` — here, in a two-network corpus with neither
name pre-excluded — the tie-break keeps the network with more plant
rows, so `A` (strictly fewer rows) and only `A` is added to the
excluded set; in larger corpora the kept network may still be excluded
later by a comparison against a third network. -/
theorem resolve_duplicates_pair (na nb : String) (A B : Network) (ct : ℚ)
    (rand : Network → Network → Bool) (pre : List String)
    (hna : na ∉ pre) (hnb : nb ∉ pre) (hne : nb ≠ na)
    (hdup : compare_networks A B ct = true)
    (hrows : A.rows.length < B.rows.length) :
    compare_all_networks [(na, A), (nb, B)] ct rand pre = pre ++ [na] := by
  have htb : tieBreak A B rand = false := by
    unfold tieBreak
    rw [if_neg (by omega), if_pos hrows]
  have hscan : resolveScan na A [(nb, B)] ct rand pre = (pre ++ [na], true) := by
    unfold resolveScan
    rw [if_neg hnb, if_pos hdup, if_neg (by rw [htb]; simp)]
  unfold compare_all_networks
  rw [if_neg hna]
  dsimp only
  rw [hscan]
  dsimp only
  unfold compare_all_networks
  rw [if_neg (by simp [hnb, hne])]
  rfl

/-- C8 (amended) witness at a concrete two-network corpus. -/
theorem resolve_duplicates_pair_witness :
    ("A" ∉ ([] : List String)) ∧ ("B" ∉ ([] : List String)) ∧ "B" ≠ "A" ∧
      compare_networks netEx2 netEx3 (1 / 2) = true ∧
      netEx2.rows.length < netEx3.rows.length ∧
      compare_all_networks [("A", netEx2), ("B", netEx3)] (1 / 2)
        (fun _ _ => true) [] = [] ++ ["A"] :=
  ⟨by decide, by decide, by decide, by decide, by decide,
    resolve_duplicates_pair "A" "B" netEx2 netEx3 (1 / 2) (fun _ _ => true) []
      (by decide) (by decide) (by decide) (by decide) (by decide)⟩

/-- C2 (code bug, evaluation at the failing input): the labels
`"Alpha x"` and `"Alpha y"` are ordinary genus-species names whose
parsed `index`, `network` and `extra` fields are all empty and whose
`species` differ, yet `map_nodeset` pairs them — the middle tiers run
with `allow_empty = not cmp_empty = true`, inverted against both the
claim and the source's own docstrings, so agreement on empty fields is
accepted as evidence of identity. -/
theorem middle_tier_empty_match_bug :
    (map_nodeset ["Alpha x"] ["Alpha y"]).1.lookup "Alpha x" = some (some "Alpha y") ∧
      (species_pattern "Alpha x").species = "x" ∧
      (species_pattern "Alpha y").species = "y" ∧
      (species_pattern "Alpha x").index = "" ∧
      (species_pattern "Alpha x").network = "" ∧
      (species_pattern "Alpha x").extra = ExtraVal.str "" := by decide

end RatComputation
